import Mathlib

/-!
# wreport: the bulletin interpreter (`wreport/bulletin/internals.cc`)

A shallow embedding of the bitmap tracker (`Bitmap`), of the interpreter core
(`Visitor`) and of the two storage-bound bindings (`BaseVisitor`,
`ConstBaseVisitor`), followed by the properties proved about them.

Conventions of the embedding.

* A C++ member function that mutates its object and may throw becomes a function
  from the state before the call to a pair: the outcome (`Except Err α`) and the
  state the object is left in. The state is kept when an exception is thrown,
  because the object outlives the exception.
* An access with no defined behaviour in the source (an index outside a vector or
  outside the characters of a value) is reported as `Err.undefined`; it is not
  one of the errors the source throws.
* The counters of the source are `unsigned`; they are natural numbers here. The
  decrements of `Bitmap::init` are guarded by tests against zero and cannot wrap;
  the conversion of `enqi()` to `unsigned` is explicit (`to_unsigned`).
* The pure virtual operations (`do_var`, `do_attr`, ...) are a record of
  functions over the state of the backend, `Delegate`; `ops.visit(*this)` is a
  function parameter of `r_replication`.
-/

namespace Wreport

/-! ## Data model -/

/-- Outcomes other than a normal return. `consistency` is `error_consistency` and
`unimplemented` is `error_unimplemented`, each with the numbers that the source
formats into the message (none for a fixed message); `external` is an exception
raised by a collaborator that is not part of `internals.cc` (the variable table,
a `Var` accessor, a backend operation); `undefined` is an access without defined
behaviour. -/
inductive Err where
  | consistency (args : List Nat)
  | unimplemented (args : List Nat)
  | external (tag : Nat)
  | undefined
  deriving DecidableEq, Repr

deriving instance DecidableEq for Except

/-- A descriptor code, `Varcode` (an unsigned 16 bit integer). -/
abbrev Varcode := Nat

/-- Modelled from the spec: the macro `WR_VAR(f, x, y)` of the header
`varinfo.h`, which is not among the sources; a code is the packed triple
(class F: 2 bits, category X: 6 bits, item Y: 8 bits). -/
def WR_VAR (f x y : Nat) : Varcode := (f <<< 14) ||| (x <<< 8) ||| y

/-- Modelled from the spec: the macro `WR_VAR_F(code)` of the absent header
`varinfo.h`, the class F of a packed descriptor code. -/
def WR_VAR_F (code : Varcode) : Nat := (code >>> 14) &&& 0x3

/-- Modelled from the spec: the macro `WR_VAR_X(code)` of the absent header
`varinfo.h`, the category X of a packed descriptor code. -/
def WR_VAR_X (code : Varcode) : Nat := (code >>> 8) &&& 0x3f

/-- Modelled from the spec: the macro `WR_VAR_Y(code)` of the absent header
`varinfo.h`, the item Y of a packed descriptor code. -/
def WR_VAR_Y (code : Varcode) : Nat := code &&& 0xff

/-- Modelled from the spec: the metadata record behind a `Varinfo` (declared in
the absent header `varinfo.h`), with the members the sources read (`var`,
`scale`, `bit_len`, `len`, `is_string()`) and those that `c_local_descriptor`
fills in through `set`. -/
structure Varinfo where
  var : Varcode
  desc : String
  unit : String
  scale : Int
  ref : Int
  len : Nat
  bit_ref : Int
  bit_len : Nat
  is_string : Bool
  deriving DecidableEq, Repr

/-- Modelled from the spec: a value `Var` (declared in the absent header `var.h`),
as the four observations the sources make of it: `code()`, `info()`, `value()`
(the characters of the value) and `enqi()` (which may throw). -/
structure Var where
  code : Varcode
  info : Varinfo
  value : List Char
  enqi : Except Err Int
  deriving DecidableEq

/-- A subset, a vector of values. -/
abbrev Subset := List Var

/-- Modelled from the spec: the variable table behind `btable` (class `Vartable`,
not among the sources): `query`, `query_altered` and `contains`. -/
structure Vartable where
  query : Varcode → Except Err Varinfo
  query_altered : Varcode → Int → Int → Except Err Varinfo
  contains : Varcode → Bool

/-! ## Bitmap tracker -/

/-- The members of `Bitmap`. `iter` is a reverse iterator over `refs`; it is
kept as the index of its base iterator, so that `refs.rbegin()` is
`refs.length`, `refs.rend()` is `0`, `*iter` is `refs[iter - 1]` and `++iter`
decrements the index. -/
structure Bitmap where
  bitmap : Option Var
  old_anchor : Nat
  refs : List Nat
  iter : Nat
  deriving DecidableEq

/-- `Bitmap::reset`. -/
def Bitmap.reset (_self : Bitmap) : Bitmap :=
  { bitmap := none, old_anchor := 0, refs := [], iter := 0 }

/-- The inner loop of `Bitmap::init`, started at `s_cur`:
`while (WR_VAR_F(subset[s_cur].code()) != 0) { if (s_cur == 0) throw ...; --s_cur; }`.
Returns the value of `s_cur` at which the loop stops. -/
def Bitmap.init_skip (subset : Subset) : Nat → Except Err Nat
  | 0 =>
    match subset[0]? with
    | none => .error .undefined
    | some v => if WR_VAR_F v.code ≠ 0 then .error (.consistency []) else .ok 0
  | s_cur + 1 =>
    match subset[s_cur + 1]? with
    | none => .error .undefined
    | some v => if WR_VAR_F v.code ≠ 0 then Bitmap.init_skip subset s_cur else .ok (s_cur + 1)

/-- The `while (true)` loop of `Bitmap::init`. The arguments `b_cur` and `s_cur`
are the values of the two counters after the decrements `--b_cur; --s_cur;` that
open an iteration (both counters are non-zero when an iteration starts, so the
unsigned decrements never wrap). Returns the outcome and the contents of `refs`
when the loop is left. -/
def Bitmap.init_loop (bitmap : Var) (subset : Subset) :
    Nat → Nat → List Nat → Except Err Unit × List Nat
  | b_cur, s_cur, refs =>
    match Bitmap.init_skip subset s_cur with
    | .error e => (.error e, refs)
    | .ok s_cur =>
      match bitmap.value[b_cur]? with
      | none => (.error .undefined, refs)
      | some c =>
        let refs := if c = '+' then refs ++ [s_cur] else refs
        match b_cur with
        | 0 => (.ok (), refs)
        | b_cur + 1 =>
          if s_cur = 0 then (.error (.consistency []), refs)
          else Bitmap.init_loop bitmap subset b_cur (s_cur - 1) refs

/-- `Bitmap::init`. -/
def Bitmap.init (self : Bitmap) (bitmap : Var) (subset : Subset) (anchor : Nat) :
    Except Err Unit × Bitmap :=
  let self := { self with bitmap := some bitmap, refs := [] }
  let anchor := if self.old_anchor ≠ 0 then self.old_anchor else anchor
  let self := if self.old_anchor ≠ 0 then self else { self with old_anchor := anchor }
  let b_cur := bitmap.info.len
  let s_cur := anchor
  if b_cur = 0 then (.error (.consistency []), self)
  else if s_cur = 0 then (.error (.consistency []), self)
  else
    match Bitmap.init_loop bitmap subset (b_cur - 1) (s_cur - 1) self.refs with
    | (.error e, refs) => (.error e, { self with refs := refs })
    | (.ok (), refs) => (.ok (), { self with refs := refs, iter := refs.length })

/-- `Bitmap::eob`. -/
def Bitmap.eob (self : Bitmap) : Bool := self.iter == 0

/-- `Bitmap::next`: `unsigned res = *iter; ++iter; return res;`. -/
def Bitmap.next (self : Bitmap) : Except Err Nat × Bitmap :=
  match self.iter with
  | 0 => (.error .undefined, self)
  | k + 1 =>
    match self.refs[k]? with
    | none => (.error .undefined, self)
    | some res => (.ok res, { self with iter := k })

/-- The draining loop of a caller, `while (!eob()) out.push_back(next());`, run for
at most `fuel` iterations: the references read and the tracker afterwards. -/
def Bitmap.drain : Nat → Bitmap → List Nat × Bitmap
  | 0, self => ([], self)
  | fuel + 1, self =>
    if self.eob then ([], self)
    else
      match self.next with
      | (.error _, self) => ([], self)
      | (.ok res, self) =>
        let r := Bitmap.drain fuel self
        (res :: r.1, r.2)

/-! ## Interpreter core -/

/-- The members of `Visitor`. The two pointer members, `btable` and
`current_subset`, are kept as the objects they point to. -/
structure Visitor where
  btable : Vartable
  current_subset : Subset
  bitmap : Bitmap
  c_scale_change : Int
  c_width_change : Int
  c_string_len_override : Nat
  c04_bits : Nat
  c04_meaning : Int
  want_bitmap : Bool
  data_pos : Nat

/-- An interpreter object: the members of `Visitor` and the members `ext` that a
derived class adds. -/
structure Interp (β : Type) where
  vis : Visitor
  ext : β

/-- A member function that may throw: from the object before the call to the
outcome and the object after the call (also when the outcome is an error). -/
def M (σ α : Type) : Type := σ → Except Err α × σ

/-- Normal return of `a`. -/
def M.ret {σ α : Type} (a : α) : M σ α := fun s => (.ok a, s)

/-- Sequencing: the second call is made only if the first returns normally. -/
def M.andThen {σ α γ : Type} (x : M σ α) (f : α → M σ γ) : M σ γ := fun s =>
  match x s with
  | (.ok a, s) => f a s
  | (.error e, s) => (.error e, s)

instance {σ : Type} : Monad (M σ) where
  pure := M.ret
  bind := M.andThen

/-- The statement `throw e`. -/
def M.raise {σ α : Type} (e : Err) : M σ α := fun s => (.error e, s)

/-- The outcome of a call that does not touch the object. -/
def M.lift {σ α : Type} (x : Except Err α) : M σ α := fun s => (x, s)

/-- Read the `Visitor` members. -/
def Interp.read {β : Type} : M (Interp β) Visitor := fun s => (.ok s.vis, s)

/-- Assign `Visitor` members. -/
def Interp.update {β : Type} (f : Visitor → Visitor) : M (Interp β) Unit :=
  fun s => (.ok (), { s with vis := f s.vis })

/-- Call a member function of the `bitmap` member. -/
def Interp.on_bitmap {β α : Type} (op : Bitmap → Except Err α × Bitmap) : M (Interp β) α :=
  fun s => ((op s.vis.bitmap).1, { s with vis := { s.vis with bitmap := (op s.vis.bitmap).2 } })

/-- Call an operation of the derived class: it sees the `Visitor` members and
works on the members of the derived class. -/
def Interp.call {β α : Type} (op : Visitor → β → Except Err α × β) : M (Interp β) α :=
  fun s => ((op s.vis s.ext).1, { s with ext := (op s.vis s.ext).2 })

/-- The virtual operations that `Visitor` leaves to derived classes, over the
members `β` of the derived class; `Ops` stands for the class `Opcodes`, which is
not among the sources. -/
structure Delegate (β Ops : Type) where
  do_var : Varinfo → Visitor → β → Except Err Unit × β
  do_attr : Varinfo → Nat → Varcode → Visitor → β → Except Err Unit × β
  do_semantic_var : Varinfo → Visitor → β → Except Err Var × β
  do_associated_field : Nat → Int → Visitor → β → Except Err Unit × β
  do_char_data : Varcode → Visitor → β → Except Err Unit × β
  do_bitmap : Varcode → Varcode → Ops → Visitor → β → Except Err Var × β
  do_start_repetition : Nat → Visitor → β → Except Err Unit × β

/-- `Visitor::get_varinfo`. -/
def Visitor.get_varinfo (self : Visitor) (code : Varcode) : Except Err Varinfo :=
  match self.btable.query code with
  | .error e => .error e
  | .ok peek =>
    if self.c_scale_change = 0 ∧ self.c_width_change = 0 ∧ self.c_string_len_override = 0 then
      .ok peek
    else
      let scale : Int := peek.scale
      let scale := if self.c_scale_change ≠ 0 then scale + self.c_scale_change else scale
      let bit_len : Int := peek.bit_len
      let bit_len :=
        if peek.is_string = true ∧ self.c_string_len_override ≠ 0 then
          (self.c_string_len_override : Int) * 8
        else if self.c_width_change ≠ 0 then bit_len + self.c_width_change
        else bit_len
      self.btable.query_altered code scale bit_len

/-- `Visitor::b_variable`. -/
def Visitor.b_variable {β Ops : Type} (d : Delegate β Ops) (code : Varcode) :
    M (Interp β) Unit := do
  let self ← Interp.read
  let info ← M.lift (self.get_varinfo code)
  if WR_VAR_F code = 0 ∧ WR_VAR_X code = 33 ∧ self.bitmap.eob = false then
    let target ← Interp.on_bitmap Bitmap.next
    Interp.call (d.do_attr info target code)
  else
    if self.c04_bits > 0 then
      Interp.call (d.do_associated_field self.c04_bits self.c04_meaning)
    Interp.call (d.do_var info)
    Interp.update fun v => { v with data_pos := v.data_pos + 1 }

/-- `Visitor::c_modifier`. -/
def Visitor.c_modifier {β : Type} (_code : Varcode) : M (Interp β) Unit :=
  pure ()

/-- `Visitor::c_change_data_width`. -/
def Visitor.c_change_data_width {β : Type} (_code : Varcode) (change : Int) :
    M (Interp β) Unit :=
  Interp.update fun v => { v with c_width_change := change }

/-- `Visitor::c_change_data_scale`. -/
def Visitor.c_change_data_scale {β : Type} (_code : Varcode) (change : Int) :
    M (Interp β) Unit :=
  Interp.update fun v => { v with c_scale_change := change }

/-- `Visitor::c_associated_field`. -/
def Visitor.c_associated_field {β Ops : Type} (d : Delegate β Ops)
    (code _sig_code : Varcode) (_nbits : Nat) : M (Interp β) Unit := do
  let self ← Interp.read
  if WR_VAR_Y code ≠ 0 ∧ self.c04_bits ≠ 0 then
    M.raise (.unimplemented [])
  if WR_VAR_Y code > 32 then
    M.raise (.unimplemented [WR_VAR_Y code])
  if WR_VAR_Y code ≠ 0 then
    let info ← M.lift (self.btable.query (WR_VAR 0 31 21))
    let var ← Interp.call (d.do_semantic_var info)
    let meaning ← M.lift var.enqi
    Interp.update fun v => { v with c04_meaning := meaning }
    Interp.update fun v => { v with data_pos := v.data_pos + 1 }
  Interp.update fun v => { v with c04_bits := WR_VAR_Y code }

/-- `Visitor::c_char_data`. -/
def Visitor.c_char_data {β Ops : Type} (d : Delegate β Ops) (code : Varcode) :
    M (Interp β) Unit :=
  Interp.call (d.do_char_data code)

/-- The expression `ceil(log10(exp2(bits)))` of `c_local_descriptor`, for the
widths that reach it (`1 ≤ bits ≤ 32`): the number of powers of ten below
`2 ^ bits`, that is the least `d` with `2 ^ bits ≤ 10 ^ d`. -/
def decimal_digits (bits : Nat) : Nat :=
  ((List.range 11).filter fun d => 10 ^ d < 2 ^ bits).length

/-- `Visitor::c_local_descriptor`. The single-use record is the one that
`MutableVarinfo::set` fills in. -/
def Visitor.c_local_descriptor {β Ops : Type} (d : Delegate β Ops)
    (code desc_code : Varcode) (_nbits : Nat) : M (Interp β) Unit := do
  let self ← Interp.read
  if WR_VAR_Y code > 32 then
    M.raise (.unimplemented [WR_VAR_Y code])
  if WR_VAR_Y code ≠ 0 then
    let skip ←
      if self.btable.contains desc_code then do
        let info ← M.lift (self.get_varinfo desc_code)
        if info.bit_len = WR_VAR_Y code then do
          Interp.call (d.do_var info)
          pure false
        else
          pure true
      else
        pure true
    if skip then
      let info : Varinfo :=
        { var := code, desc := "UNKNOWN LOCAL DESCRIPTOR", unit := "UNKNOWN", scale := 0,
          ref := 0, len := decimal_digits (WR_VAR_Y code), bit_ref := 0,
          bit_len := WR_VAR_Y code, is_string := true }
      Interp.call (d.do_var info)
    Interp.update fun v => { v with data_pos := v.data_pos + 1 }

/-- `Visitor::c_char_data_override`. -/
def Visitor.c_char_data_override {β : Type} (_code : Varcode) (new_length : Nat) :
    M (Interp β) Unit :=
  Interp.update fun v => { v with c_string_len_override := new_length }

/-- `Visitor::c_quality_information_bitmap`. -/
def Visitor.c_quality_information_bitmap {β : Type} (code : Varcode) : M (Interp β) Unit := do
  if WR_VAR_Y code ≠ 0 then
    M.raise (.consistency [WR_VAR_F code, WR_VAR_X code, WR_VAR_Y code])
  Interp.update fun v => { v with want_bitmap := true }

/-- `Visitor::c_substituted_value_bitmap`. -/
def Visitor.c_substituted_value_bitmap {β : Type} (_code : Varcode) : M (Interp β) Unit :=
  Interp.update fun v => { v with want_bitmap := true }

/-- `Visitor::c_substituted_value`. -/
def Visitor.c_substituted_value {β Ops : Type} (d : Delegate β Ops) (_code : Varcode) :
    M (Interp β) Unit := do
  let self ← Interp.read
  if self.bitmap.bitmap.isNone then
    M.raise (.consistency [])
  if self.bitmap.eob then
    M.raise (.consistency [])
  let target ← Interp.on_bitmap Bitmap.next
  let var ← M.lift (match self.current_subset[target]? with
    | none => .error .undefined
    | some var => .ok var)
  let info := var.info
  Interp.call (d.do_attr info target info.var)

/-- The conversion of the `int` returned by `enqi()` to the `unsigned count`. -/
def to_unsigned (i : Int) : Nat := (i % 4294967296).toNat

/-- The loop `for (unsigned i = 0; i < count; ++i) { do_start_repetition(i); ops.visit(*this); }`
of `Visitor::r_replication`, from the value `i` of the counter with `count - i`
iterations left. -/
def Visitor.r_replication_loop {β Ops : Type} (d : Delegate β Ops) (visit : Ops → M (Interp β) Unit)
    (ops : Ops) : Nat → Nat → M (Interp β) Unit
  | _, 0 => pure ()
  | i, left + 1 => do
    Interp.call (d.do_start_repetition i)
    visit ops
    Visitor.r_replication_loop d visit ops (i + 1) left

/-- `Visitor::r_replication`; `visit ops` is `ops.visit(*this)`. -/
def Visitor.r_replication {β Ops : Type} (d : Delegate β Ops) (visit : Ops → M (Interp β) Unit)
    (code delayed_code : Varcode) (ops : Ops) : M (Interp β) Unit := do
  let count : Nat := WR_VAR_Y code
  let self ← Interp.read
  if self.want_bitmap then
    let delayed_code :=
      if count = 0 ∧ delayed_code = 0 then WR_VAR 0 31 12 else delayed_code
    let bitmap_var ← Interp.call (d.do_bitmap code delayed_code ops)
    Interp.on_bitmap fun b => b.init bitmap_var self.current_subset self.data_pos
    if delayed_code ≠ 0 then
      Interp.update fun v => { v with data_pos := v.data_pos + 1 }
    Interp.update fun v => { v with want_bitmap := false }
  else
    let count ←
      if count = 0 then do
        let info ← M.lift
          (self.btable.query (if delayed_code ≠ 0 then delayed_code else WR_VAR 0 31 12))
        let var ← Interp.call (d.do_semantic_var info)
        let n ← M.lift var.enqi
        Interp.update fun v => { v with data_pos := v.data_pos + 1 }
        pure (to_unsigned n)
      else
        pure count
    Visitor.r_replication_loop d visit ops 0 count

/-- `Visitor::do_start_subset`. -/
def Visitor.do_start_subset (self : Visitor) (_subset_no : Nat) (current_subset : Subset) :
    Visitor :=
  { self with
    current_subset := current_subset
    c_scale_change := 0
    c_width_change := 0
    c_string_len_override := 0
    bitmap := self.bitmap.reset
    c04_bits := 0
    c04_meaning := 63
    want_bitmap := false
    data_pos := 0 }

/-- `Visitor::do_start_repetition`, the default of the virtual operation. -/
def Visitor.do_start_repetition {β : Type} (_idx : Nat) (_self : Visitor) (ext : β) :
    Except Err Unit × β :=
  (.ok (), ext)

/-! ## Storage-bound bindings -/

/-- A bulletin, as far as the sources use it: its vector of subsets. -/
structure Bulletin where
  subsets : List Subset

/-- The members that `BaseVisitor` adds to `Visitor`. -/
structure BaseVisitor where
  bulletin : Bulletin
  current_subset_no : Nat
  current_var : Nat

/-- `BaseVisitor::get_var(unsigned var_pos) const`. -/
def BaseVisitor.get_var_pos (var_pos : Nat) (vis : Visitor) (self : BaseVisitor) :
    Except Err Var :=
  let max_var := vis.current_subset.length
  if var_pos ≥ max_var then
    .error (.consistency [var_pos, max_var, self.current_subset_no])
  else
    match self.bulletin.subsets[self.current_subset_no]? with
    | none => .error .undefined
    | some subset =>
      match subset[var_pos]? with
      | none => .error .undefined
      | some var => .ok var

/-- `BaseVisitor::get_var()`. -/
def BaseVisitor.get_var (vis : Visitor) (self : BaseVisitor) : Except Err Var × BaseVisitor :=
  match BaseVisitor.get_var_pos self.current_var vis self with
  | .error e => (.error e, self)
  | .ok res => (.ok res, { self with current_var := self.current_var + 1 })

/-- `BaseVisitor::do_start_subset`. -/
def BaseVisitor.do_start_subset (subset_no : Nat) (current_subset : Subset) :
    M (Interp BaseVisitor) Unit := do
  Interp.update fun v => v.do_start_subset subset_no current_subset
  let self ← (fun s => (.ok s.ext, s) : M (Interp BaseVisitor) BaseVisitor)
  if subset_no ≥ self.bulletin.subsets.length then
    M.raise (.consistency [subset_no, self.bulletin.subsets.length])
  let subset ← M.lift (match self.bulletin.subsets[subset_no]? with
    | none => .error .undefined
    | some subset => .ok subset)
  Interp.update fun v => { v with current_subset := subset }
  fun s => (.ok (), { s with ext := { s.ext with current_subset_no := subset_no, current_var := 0 } })

/-- `BaseVisitor::do_bitmap`. -/
def BaseVisitor.do_bitmap {Ops : Type} (_code _delayed_code : Varcode) (_ops : Ops)
    (vis : Visitor) (self : BaseVisitor) : Except Err Var × BaseVisitor :=
  match BaseVisitor.get_var vis self with
  | (.error e, self) => (.error e, self)
  | (.ok var, self) =>
    if WR_VAR_F var.code ≠ 2 then
      (.error (.consistency
        [self.current_var - 1, WR_VAR_F var.code, WR_VAR_X var.code, WR_VAR_Y var.code]), self)
    else (.ok var, self)

/-- The members that `ConstBaseVisitor` adds to `Visitor`. -/
structure ConstBaseVisitor where
  bulletin : Bulletin
  current_subset_no : Nat
  current_var : Nat

/-- `ConstBaseVisitor::get_var(unsigned var_pos) const`. -/
def ConstBaseVisitor.get_var_pos (var_pos : Nat) (vis : Visitor) (self : ConstBaseVisitor) :
    Except Err Var :=
  let max_var := vis.current_subset.length
  if var_pos ≥ max_var then
    .error (.consistency [var_pos, max_var, self.current_subset_no])
  else
    match vis.current_subset[var_pos]? with
    | none => .error .undefined
    | some var => .ok var

/-- `ConstBaseVisitor::get_var()`. -/
def ConstBaseVisitor.get_var (vis : Visitor) (self : ConstBaseVisitor) :
    Except Err Var × ConstBaseVisitor :=
  match ConstBaseVisitor.get_var_pos self.current_var vis self with
  | .error e => (.error e, self)
  | .ok res => (.ok res, { self with current_var := self.current_var + 1 })

/-- `ConstBaseVisitor::do_start_subset`. -/
def ConstBaseVisitor.do_start_subset (subset_no : Nat) (current_subset : Subset) :
    M (Interp ConstBaseVisitor) Unit := do
  Interp.update fun v => v.do_start_subset subset_no current_subset
  let self ← (fun s => (.ok s.ext, s) : M (Interp ConstBaseVisitor) ConstBaseVisitor)
  if subset_no ≥ self.bulletin.subsets.length then
    M.raise (.consistency [subset_no, self.bulletin.subsets.length])
  fun s => (.ok (), { s with ext := { s.ext with current_subset_no := subset_no, current_var := 0 } })

/-- `ConstBaseVisitor::do_bitmap`. -/
def ConstBaseVisitor.do_bitmap {Ops : Type} (_code _delayed_code : Varcode) (_ops : Ops)
    (vis : Visitor) (self : ConstBaseVisitor) : Except Err Var × ConstBaseVisitor :=
  match ConstBaseVisitor.get_var vis self with
  | (.error e, self) => (.error e, self)
  | (.ok var, self) =>
    if WR_VAR_F var.code ≠ 2 then
      (.error (.consistency
        [self.current_var - 1, WR_VAR_F var.code, WR_VAR_X var.code, WR_VAR_Y var.code]), self)
    else (.ok var, self)

/-! ## A recording backend

The calls that the interpreter makes on its virtual operations are observed with
a backend that appends each call to a list and never fails. -/

/-- One call of a virtual operation, with its arguments; `traverse` is a call of
`ops.visit(*this)`, with the value of `data_pos` when it is made. -/
inductive Event where
  | var (info : Varinfo)
  | attr (info : Varinfo) (var_pos : Nat) (attr_code : Varcode)
  | semantic_var (info : Varinfo)
  | associated_field (bit_count : Nat) (significance : Int)
  | char_data (code : Varcode)
  | bitmap (code delayed_code : Varcode)
  | start_repetition (idx : Nat)
  | traverse (data_pos : Nat)
  deriving DecidableEq, Repr

/-- The recording backend: `do_semantic_var info` returns `answer info` and
`do_bitmap` returns `bitmap_var`. -/
def recorder {Ops : Type} (answer : Varinfo → Var) (bitmap_var : Var) :
    Delegate (List Event) Ops where
  do_var info _ log := (.ok (), log ++ [.var info])
  do_attr info var_pos attr_code _ log := (.ok (), log ++ [.attr info var_pos attr_code])
  do_semantic_var info _ log := (.ok (answer info), log ++ [.semantic_var info])
  do_associated_field bit_count significance _ log :=
    (.ok (), log ++ [.associated_field bit_count significance])
  do_char_data code _ log := (.ok (), log ++ [.char_data code])
  do_bitmap code delayed_code _ _ log := (.ok bitmap_var, log ++ [.bitmap code delayed_code])
  do_start_repetition idx _ log := (.ok (), log ++ [.start_repetition idx])

/-- A group whose traversal is only recorded. -/
def recorded_group {Ops : Type} (_ops : Ops) : M (Interp (List Event)) Unit :=
  fun s => (.ok (), { s with ext := s.ext ++ [.traverse s.vis.data_pos] })

/-- The calls `x 0; x 1; ...; x (n - 1)` in sequence, stopping at the first that
throws. -/
def M.sequence {σ : Type} : List (M σ Unit) → M σ Unit
  | [] => pure ()
  | x :: xs => do x; M.sequence xs

/-! ## Vocabulary of the statements -/

/-- Modelled from the spec: the calls that the traversal of a descriptor program
(`Opcodes::visit`, not among the sources) makes, in document order, for the
program [plain variable `a`] [quality bitmap request `C 22 000`] [delayed
replication `R 01 000`, with the count descriptor `delayed_code`, over the group
[plain variable `b`]] [substituted value `C 23 255`]. The group is handed to
`r_replication`, which alone decides whether it is traversed. -/
def end_to_end_program {β : Type} (d : Delegate β Unit) (a b delayed_code : Varcode) :
    M (Interp β) Unit := do
  Visitor.b_variable d a
  Visitor.c_quality_information_bitmap (WR_VAR 2 22 0)
  Visitor.r_replication d (fun _ => Visitor.b_variable d b) (WR_VAR 1 1 0) delayed_code ()
  Visitor.c_substituted_value d (WR_VAR 2 23 255)

/-- The positions below `a` whose value has a descriptor of class F = 0, in the
order in which a walk backward from position `a - 1` meets them. -/
def plain_below (subset : Subset) (a : Nat) : List Nat :=
  (List.range a).reverse.filter fun j =>
    match subset[j]? with
    | some v => decide (WR_VAR_F v.code = 0)
    | none => false

/-- The references that a bitmap of declared length `L` denotes at anchor `a`:
for each `i < L` in increasing order whose character is `+`, the `(L - i)`-th
entry of `plain_below subset a`. -/
def bitmap_targets (bitmap : Var) (subset : Subset) (a : Nat) : List Nat :=
  (List.range bitmap.info.len).filterMap fun i =>
    if bitmap.value[i]? = some '+' then (plain_below subset a)[bitmap.info.len - i - 1]?
    else none

/-- The anchor that `Bitmap::init` works with: the remembered first anchor if
there is one, the argument otherwise. -/
def Bitmap.effective_anchor (self : Bitmap) (anchor : Nat) : Nat :=
  if self.old_anchor ≠ 0 then self.old_anchor else anchor

/-- The part of `Bitmap::init` that follows the choice of the anchor, as a
function of the anchor chosen: the outcome and the contents of `refs`. -/
def Bitmap.init_from (bitmap : Var) (subset : Subset) (anchor : Nat) :
    Except Err Unit × List Nat :=
  if bitmap.info.len = 0 then (.error (.consistency []), [])
  else if anchor = 0 then (.error (.consistency []), [])
  else Bitmap.init_loop bitmap subset (bitmap.info.len - 1) (anchor - 1) []

/-- One call on a bitmap tracker other than `reset`. -/
inductive BitmapCall where
  | init (bitmap : Var) (subset : Subset) (anchor : Nat)
  | next
  | eob

/-- The tracker after a call. -/
def Bitmap.after (self : Bitmap) : BitmapCall → Bitmap
  | .init bitmap subset anchor => (self.init bitmap subset anchor).2
  | .next => self.next.2
  | .eob => self

/-- The tracker after a sequence of calls. -/
def Bitmap.after_all (self : Bitmap) (calls : List BitmapCall) : Bitmap :=
  calls.foldl Bitmap.after self

/-- The condition on the tracker of an interpreter that holds from
`do_start_subset` on: the iterator stands inside the queue of references, no
reference is pending unless a bitmap is active, and every reference is a position
of the current subset. -/
def Visitor.tracker_ok (v : Visitor) : Prop :=
  v.bitmap.iter ≤ v.bitmap.refs.length ∧
  (v.bitmap.bitmap = none → v.bitmap.iter = 0) ∧
  ∀ r ∈ v.bitmap.refs, r < v.current_subset.length

/-- The call `x` leaves the tracker and the current subset as they are, whatever
its outcome. -/
def Interp.frames {β α : Type} (x : M (Interp β) α) : Prop :=
  ∀ s, (x s).2.vis.bitmap = s.vis.bitmap ∧ (x s).2.vis.current_subset = s.vis.current_subset

/-- The call `x` keeps `P`: when it returns normally from a state whose `Visitor`
members satisfy `P`, the members it leaves satisfy `P`. -/
def Interp.keeps {β α : Type} (P : Visitor → Prop) (x : M (Interp β) α) : Prop :=
  ∀ s a t, P s.vis → x s = (.ok a, t) → P t.vis

/-- The traversals of an interpreter with backend `d`: the sequences of callbacks,
where the group of a replication is traversed by a traversal. -/
inductive Traversal {β Ops : Type} (d : Delegate β Ops) : M (Interp β) Unit → Prop where
  | done : Traversal d (pure ())
  | seq {x y : M (Interp β) Unit} : Traversal d x → Traversal d y → Traversal d (x >>= fun _ => y)
  | b_variable (code : Varcode) : Traversal d (Visitor.b_variable d code)
  | c_modifier (code : Varcode) : Traversal d (Visitor.c_modifier code)
  | c_change_data_width (code : Varcode) (change : Int) :
    Traversal d (Visitor.c_change_data_width code change)
  | c_change_data_scale (code : Varcode) (change : Int) :
    Traversal d (Visitor.c_change_data_scale code change)
  | c_associated_field (code sig_code : Varcode) (nbits : Nat) :
    Traversal d (Visitor.c_associated_field d code sig_code nbits)
  | c_char_data (code : Varcode) : Traversal d (Visitor.c_char_data d code)
  | c_local_descriptor (code desc_code : Varcode) (nbits : Nat) :
    Traversal d (Visitor.c_local_descriptor d code desc_code nbits)
  | c_char_data_override (code : Varcode) (new_length : Nat) :
    Traversal d (Visitor.c_char_data_override code new_length)
  | c_quality_information_bitmap (code : Varcode) :
    Traversal d (Visitor.c_quality_information_bitmap code)
  | c_substituted_value_bitmap (code : Varcode) :
    Traversal d (Visitor.c_substituted_value_bitmap code)
  | c_substituted_value (code : Varcode) : Traversal d (Visitor.c_substituted_value d code)
  | r_replication (visit : Ops → M (Interp β) Unit) (code delayed_code : Varcode) (ops : Ops) :
    (∀ o, Traversal d (visit o)) →
    Traversal d (Visitor.r_replication d visit code delayed_code ops)

/-- The single-use record that `c_local_descriptor` fabricates for the operator
`code`: string-typed, scale 0, bit width `WR_VAR_Y(code)`. -/
def local_descriptor_info (code : Varcode) : Varinfo :=
  { var := code, desc := "UNKNOWN LOCAL DESCRIPTOR", unit := "UNKNOWN", scale := 0,
    ref := 0, len := decimal_digits (WR_VAR_Y code), bit_ref := 0,
    bit_len := WR_VAR_Y code, is_string := true }

/-- One call on a storage-bound binding. -/
inductive BindingCall where
  | do_start_subset (subset_no : Nat) (current_subset : Subset)
  | get_var
  | get_var_pos (var_pos : Nat)
  | do_bitmap (code delayed_code : Varcode)
  deriving DecidableEq

/-- The call on the mutable binding: what it returns or throws (a value for the
three reading calls) and the object afterwards. -/
def BaseVisitor.perform :
    BindingCall → Interp BaseVisitor → Except Err (Option Var) × Interp BaseVisitor
  | .do_start_subset subset_no current_subset, s =>
    ((BaseVisitor.do_start_subset subset_no current_subset s).1.map fun _ => none,
      (BaseVisitor.do_start_subset subset_no current_subset s).2)
  | .get_var, s =>
    ((BaseVisitor.get_var s.vis s.ext).1.map some,
      { s with ext := (BaseVisitor.get_var s.vis s.ext).2 })
  | .get_var_pos var_pos, s => ((BaseVisitor.get_var_pos var_pos s.vis s.ext).map some, s)
  | .do_bitmap code delayed_code, s =>
    ((BaseVisitor.do_bitmap code delayed_code () s.vis s.ext).1.map some,
      { s with ext := (BaseVisitor.do_bitmap code delayed_code () s.vis s.ext).2 })

/-- The call on the read-only binding. -/
def ConstBaseVisitor.perform :
    BindingCall → Interp ConstBaseVisitor → Except Err (Option Var) × Interp ConstBaseVisitor
  | .do_start_subset subset_no current_subset, s =>
    ((ConstBaseVisitor.do_start_subset subset_no current_subset s).1.map fun _ => none,
      (ConstBaseVisitor.do_start_subset subset_no current_subset s).2)
  | .get_var, s =>
    ((ConstBaseVisitor.get_var s.vis s.ext).1.map some,
      { s with ext := (ConstBaseVisitor.get_var s.vis s.ext).2 })
  | .get_var_pos var_pos, s => ((ConstBaseVisitor.get_var_pos var_pos s.vis s.ext).map some, s)
  | .do_bitmap code delayed_code, s =>
    ((ConstBaseVisitor.do_bitmap code delayed_code () s.vis s.ext).1.map some,
      { s with ext := (ConstBaseVisitor.do_bitmap code delayed_code () s.vis s.ext).2 })

/-- The outcomes of a sequence of calls on the mutable binding; the object
outlives a call that throws. -/
def BaseVisitor.perform_all : List BindingCall → Interp BaseVisitor → List (Except Err (Option Var))
  | [], _ => []
  | c :: cs, s => (BaseVisitor.perform c s).1 :: BaseVisitor.perform_all cs (BaseVisitor.perform c s).2

/-- The outcomes of a sequence of calls on the read-only binding. -/
def ConstBaseVisitor.perform_all :
    List BindingCall → Interp ConstBaseVisitor → List (Except Err (Option Var))
  | [], _ => []
  | c :: cs, s =>
    (ConstBaseVisitor.perform c s).1 :: ConstBaseVisitor.perform_all cs (ConstBaseVisitor.perform c s).2

/-- The two bindings hold the same members, and the subset that `current_subset`
points to is subset number `current_subset_no` of the bulletin. -/
def same_binding (b : Interp BaseVisitor) (c : Interp ConstBaseVisitor) : Prop :=
  b.vis = c.vis ∧ b.ext.bulletin = c.ext.bulletin ∧
  b.ext.current_subset_no = c.ext.current_subset_no ∧
  b.ext.current_var = c.ext.current_var ∧
  b.ext.bulletin.subsets[b.ext.current_subset_no]? = some b.vis.current_subset

/-! ## Example data -/

/-- A metadata record for `code`: numeric, 8 bits. -/
def ex_info (code : Varcode) : Varinfo :=
  { var := code, desc := "", unit := "", scale := 0, ref := 0, len := 3, bit_ref := 0,
    bit_len := 8, is_string := false }

/-- A value with descriptor `code`. -/
def ex_var (code : Varcode) : Var :=
  { code := code, info := ex_info code, value := ['1'], enqi := .ok 1 }

/-- A data present bitmap with the given characters. -/
def ex_bitmap (bits : List Char) : Var :=
  { code := WR_VAR 2 22 0
    info := { var := WR_VAR 2 22 0, desc := "", unit := "", scale := 0, ref := 0,
              len := bits.length, bit_ref := 0, bit_len := bits.length, is_string := true }
    value := bits
    enqi := .error (.external 0) }

/-- A subset of five values; the value at position 2 has a descriptor of class 2. -/
def ex_subset : Subset :=
  [ex_var (WR_VAR 0 1 1), ex_var (WR_VAR 0 1 2), ex_var (WR_VAR 2 22 0),
   ex_var (WR_VAR 0 12 1), ex_var (WR_VAR 0 12 3)]

/-- A tracker in an arbitrary state. -/
def ex_tracker : Bitmap :=
  { bitmap := none, old_anchor := 7, refs := [1, 2], iter := 1 }

/-- A variable table that knows the descriptors of class F = 0. -/
def ex_table : Vartable :=
  { query := fun code =>
      if WR_VAR_F code = 0 then .ok (ex_info code) else .error (.external 1)
    query_altered := fun code scale bit_len =>
      if WR_VAR_F code = 0 then
        .ok { ex_info code with scale := scale, bit_len := bit_len.toNat }
      else .error (.external 1)
    contains := fun code => WR_VAR_F code == 0 }

/-- An interpreter in the middle of a subset, with a scale and a width change
active. -/
def ex_visitor : Visitor :=
  { btable := ex_table
    current_subset := ex_subset
    bitmap := ex_tracker
    c_scale_change := 2
    c_width_change := -3
    c_string_len_override := 0
    c04_bits := 0
    c04_meaning := 63
    want_bitmap := false
    data_pos := 3 }

/-- A backend answer for `do_semantic_var`: a value of the requested descriptor
that reads as the integer 3. -/
def ex_answer (info : Varinfo) : Var :=
  { code := info.var, info := info, value := ['3'], enqi := .ok 3 }

/-- The interpreter `ex_visitor` on the recording backend, nothing recorded yet. -/
def ex_interp : Interp (List Event) :=
  { vis := ex_visitor, ext := [] }

/-- The interpreter `ex_interp` with an associated field of 8 bits active. -/
def ex_interp_c04 : Interp (List Event) :=
  { vis := { ex_visitor with c04_bits := 8 }, ext := [] }

/-- A bulletin of two subsets. -/
def ex_bulletin : Bulletin :=
  { subsets := [ex_subset, [ex_var (WR_VAR 0 1 1)]] }

/-- A mutable binding on `ex_bulletin`. -/
def ex_base : Interp BaseVisitor :=
  { vis := ex_visitor, ext := { bulletin := ex_bulletin, current_subset_no := 0, current_var := 9 } }

/-- A read-only binding on `ex_bulletin`. -/
def ex_const : Interp ConstBaseVisitor :=
  { vis := ex_visitor, ext := { bulletin := ex_bulletin, current_subset_no := 0, current_var := 9 } }

/-- The interpreter `ex_interp` with no modifier active, an associated field of 8
bits, and an active bitmap whose references 0 and 3 are both pending. -/
def ex_interp_bitmap : Interp (List Event) :=
  { vis := { ex_visitor with
             c_scale_change := 0
             c_width_change := 0
             c04_bits := 8
             data_pos := 5
             bitmap := { bitmap := some (ex_bitmap ['+', '-', '+']), old_anchor := 4,
                         refs := [3, 0], iter := 2 } }
    ext := [] }

/-- An interpreter on the recording backend just after `do_start_subset` on
`ex_subset`, with two values transferred and a bitmap request pending. -/
def ex_interp_want : Interp (List Event) :=
  { vis := { ex_visitor.do_start_subset 0 ex_subset with want_bitmap := true, data_pos := 2 }
    ext := [] }

/-! ## Bitmap tracker: lemmas -/

theorem plain_below_zero (subset : Subset) : plain_below subset 0 = [] := rfl

theorem plain_below_succ (subset : Subset) (a : Nat) :
    plain_below subset (a + 1) =
      match subset[a]? with
      | some v => if WR_VAR_F v.code = 0 then a :: plain_below subset a
                  else plain_below subset a
      | none => plain_below subset a := by
  unfold plain_below
  rw [List.range_succ, List.reverse_append, List.reverse_singleton, List.singleton_append,
    List.filter_cons]
  cases h : subset[a]? with
  | none => simp
  | some v => by_cases hF : WR_VAR_F v.code = 0 <;> simp [hF]

theorem mem_plain_below {subset : Subset} {a r : Nat} (h : r ∈ plain_below subset a) :
    r < a ∧ ∃ v, subset[r]? = some v ∧ WR_VAR_F v.code = 0 := by
  unfold plain_below at h
  rw [List.mem_filter] at h
  obtain ⟨hr, hp⟩ := h
  refine ⟨by simpa using hr, ?_⟩
  cases hv : subset[r]? with
  | none => simp [hv] at hp
  | some v => exact ⟨v, rfl, by simpa [hv] using hp⟩

/-- When the inner loop stops normally at `s`, then `s` is the first plain
position at or below the start. -/
theorem init_skip_ok {subset : Subset} {s_cur s : Nat}
    (h : Bitmap.init_skip subset s_cur = .ok s) :
    plain_below subset (s_cur + 1) = s :: plain_below subset s := by
  induction s_cur with
  | zero =>
    unfold Bitmap.init_skip at h
    rw [plain_below_succ]
    cases hv : subset[0]? with
    | none => simp [hv] at h
    | some v =>
      by_cases hF : WR_VAR_F v.code = 0
      · simp [hv, hF] at h
        subst h
        simp [hF]
      · simp [hv, hF] at h
  | succ n ih =>
    unfold Bitmap.init_skip at h
    rw [plain_below_succ]
    cases hv : subset[n + 1]? with
    | none => simp [hv] at h
    | some v =>
      by_cases hF : WR_VAR_F v.code = 0
      · simp [hv, hF] at h
        subst h
        simp [hF]
      · simp [hv, hF] at h
        simpa [hF] using ih h

/-- The references that the outer loop appends when entered with the counters at
`b_cur` and `s_cur` (after the opening decrements), in the order of the pushes. -/
theorem init_loop_ok {bitmap : Var} {subset : Subset} {b_cur : Nat} :
    ∀ {s_cur : Nat} {refs out : List Nat},
    Bitmap.init_loop bitmap subset b_cur s_cur refs = (.ok (), out) →
    b_cur < (plain_below subset (s_cur + 1)).length ∧
    out = refs ++ (List.range (b_cur + 1)).reverse.filterMap fun i =>
      if bitmap.value[i]? = some '+' then (plain_below subset (s_cur + 1))[b_cur - i]?
      else none := by
  induction b_cur with
  | zero =>
    intro s_cur refs out h
    unfold Bitmap.init_loop at h
    cases hs : Bitmap.init_skip subset s_cur with
    | error e => simp [hs] at h
    | ok s =>
      have hp := init_skip_ok hs
      cases hc : bitmap.value[0]? with
      | none => simp [hs, hc] at h
      | some c =>
        simp only [hs, hc] at h
        by_cases hplus : c = '+'
        · simp [hplus] at h
          subst h
          simp [hp, hplus, hc, List.range_succ]
        · simp [hplus] at h
          subst h
          simp [hp, hplus, hc, List.range_succ]
  | succ b ih =>
    intro s_cur refs out h
    unfold Bitmap.init_loop at h
    cases hs : Bitmap.init_skip subset s_cur with
    | error e => simp [hs] at h
    | ok s =>
      have hp := init_skip_ok hs
      cases hc : bitmap.value[b + 1]? with
      | none => simp [hs, hc] at h
      | some c =>
        simp only [hs, hc] at h
        by_cases hs0 : s = 0
        · simp [hs0] at h
        · simp only [hs0, if_false] at h
          obtain ⟨hlen, hout⟩ := ih h
          have hs1 : s - 1 + 1 = s := by omega
          rw [hs1] at hlen hout
          refine ⟨by simp [hp]; omega, ?_⟩
          rw [List.range_succ, List.reverse_append, List.reverse_singleton,
            List.singleton_append, List.filterMap_cons, hout, hp]
          have hrest : ∀ i ∈ (List.range (b + 1)).reverse,
              (if bitmap.value[i]? = some '+' then (s :: plain_below subset s)[b + 1 - i]?
                else none) =
              (if bitmap.value[i]? = some '+' then (plain_below subset s)[b - i]? else none) := by
            intro i hi
            have hi2 : i < b + 1 := by simpa using hi
            have hidx : b + 1 - i = (b - i) + 1 := by omega
            rw [hidx, List.getElem?_cons_succ]
          rw [List.filterMap_congr hrest]
          by_cases hplus : c = '+'
          · simp [hplus, hc]
          · simp [hplus, hc]

/-- Draining a tracker whose iterator stands at index `k` of `refs`. -/
theorem drain_spec (fuel : Nat) :
    ∀ (b : Bitmap), b.iter ≤ b.refs.length →
    (b.drain fuel).1 = ((b.refs.take b.iter).reverse).take fuel ∧
    (b.drain fuel).2 = { b with iter := b.iter - fuel } := by
  induction fuel with
  | zero => intro b _; simp [Bitmap.drain]
  | succ n ih =>
    intro b hb
    unfold Bitmap.drain
    cases hk : b.iter with
    | zero =>
      cases b
      simp_all [Bitmap.eob]
    | succ k =>
      have hk2 : k < b.refs.length := by omega
      have hnext : b.next = (.ok b.refs[k], { b with iter := k }) := by
        unfold Bitmap.next
        simp [hk, List.getElem?_eq_getElem hk2]
      obtain ⟨h1, h2⟩ := ih { b with iter := k } (by simpa using Nat.le_of_lt hk2)
      have hrev : (b.refs.take (k + 1)).reverse = b.refs[k] :: (b.refs.take k).reverse := by
        rw [List.take_succ, List.getElem?_eq_getElem hk2]
        simp
      have heob : b.eob = false := by simp [Bitmap.eob, hk]
      rw [heob, hnext, hrev]
      refine ⟨?_, ?_⟩
      · show b.refs[k] :: (Bitmap.drain n { b with iter := k }).1 = _
        rw [h1, List.take_succ_cons]
      · show (Bitmap.drain n { b with iter := k }).2 = _
        rw [h2]
        simp only [Nat.add_sub_add_right]

/-- The tracker and outcome of `Bitmap::init` in terms of the anchor it works with. -/
theorem init_eq (self : Bitmap) (bitmap : Var) (subset : Subset) (anchor : Nat) :
    self.init bitmap subset anchor =
      ((Bitmap.init_from bitmap subset (self.effective_anchor anchor)).1,
        { bitmap := some bitmap
          old_anchor := self.effective_anchor anchor
          refs := (Bitmap.init_from bitmap subset (self.effective_anchor anchor)).2
          iter :=
            match (Bitmap.init_from bitmap subset (self.effective_anchor anchor)).1 with
            | .ok _ => (Bitmap.init_from bitmap subset (self.effective_anchor anchor)).2.length
            | .error _ => self.iter }) := by
  unfold Bitmap.init Bitmap.init_from Bitmap.effective_anchor
  by_cases ho : self.old_anchor = 0 <;> by_cases hl : bitmap.info.len = 0 <;>
    by_cases ha : anchor = 0 <;> simp only [ho, hl, ha, ne_eq, not_true_eq_false,
      not_false_eq_true, if_true, if_false] <;>
    first
    | rfl
    | (split <;> rename_i heq <;> simp [heq])

/-- A successful `Bitmap::init` leaves the references of `bitmap_targets`, pushed
in the reverse of their order, and the iterator at `rbegin()`. -/
theorem init_ok {self b1 : Bitmap} {bitmap : Var} {subset : Subset} {anchor : Nat}
    (h : self.init bitmap subset anchor = (.ok (), b1)) :
    bitmap.info.len ≠ 0 ∧ self.effective_anchor anchor ≠ 0 ∧
    bitmap.info.len ≤ (plain_below subset (self.effective_anchor anchor)).length ∧
    b1 = { bitmap := some bitmap
           old_anchor := self.effective_anchor anchor
           refs := (bitmap_targets bitmap subset (self.effective_anchor anchor)).reverse
           iter := (bitmap_targets bitmap subset (self.effective_anchor anchor)).length } := by
  rw [init_eq] at h
  generalize self.effective_anchor anchor = a at h ⊢
  have h1 := congrArg Prod.fst h
  have h2 := congrArg Prod.snd h
  simp only at h1 h2
  have hl : bitmap.info.len ≠ 0 := by
    intro hl
    simp [Bitmap.init_from, hl] at h1
  have ha : a ≠ 0 := by
    intro ha
    simp [Bitmap.init_from, hl, ha] at h1
  have hloop : Bitmap.init_from bitmap subset a =
      Bitmap.init_loop bitmap subset (bitmap.info.len - 1) (a - 1) [] := by
    simp [Bitmap.init_from, hl, ha]
  have hpair : Bitmap.init_loop bitmap subset (bitmap.info.len - 1) (a - 1) [] =
      (.ok (), (Bitmap.init_from bitmap subset a).2) := by
    rw [← hloop]
    exact Prod.ext h1 rfl
  obtain ⟨hlen, hrefs⟩ := init_loop_ok hpair
  have hL : bitmap.info.len - 1 + 1 = bitmap.info.len := by omega
  have hA : a - 1 + 1 = a := by omega
  rw [hL, hA] at hrefs
  rw [hA] at hlen
  have htargets : (Bitmap.init_from bitmap subset a).2 =
      (bitmap_targets bitmap subset a).reverse := by
    rw [hrefs, List.nil_append, List.filterMap_reverse]
    congr 1
    unfold bitmap_targets
    apply List.filterMap_congr
    intro i hi
    have hi2 : i < bitmap.info.len := by simpa using hi
    have hidx : bitmap.info.len - 1 - i = bitmap.info.len - i - 1 := by omega
    rw [hidx]
  refine ⟨hl, ha, by omega, ?_⟩
  rw [← h2, h1, htargets]
  simp

/-- Within the subset, the inner loop either stops at a plain position or, when
no plain position is left, throws. -/
theorem init_skip_total {subset : Subset} {s_cur : Nat} (hs : s_cur < subset.length) :
    (plain_below subset (s_cur + 1) = [] ∧
      Bitmap.init_skip subset s_cur = .error (.consistency [])) ∨
    ∃ s, s ≤ s_cur ∧ Bitmap.init_skip subset s_cur = .ok s := by
  induction s_cur with
  | zero =>
    unfold Bitmap.init_skip
    rw [plain_below_succ, List.getElem?_eq_getElem hs]
    by_cases hF : WR_VAR_F subset[0].code = 0
    · right
      exact ⟨0, le_refl 0, by simp [hF]⟩
    · left
      simp [hF, plain_below_zero]
  | succ n ih =>
    unfold Bitmap.init_skip
    rw [plain_below_succ, List.getElem?_eq_getElem hs]
    by_cases hF : WR_VAR_F subset[n + 1].code = 0
    · right
      exact ⟨n + 1, le_refl _, by simp [hF]⟩
    · rcases ih (by omega) with ⟨h1, h2⟩ | ⟨s, h1, h2⟩
      · left
        simp [hF, h1, h2]
      · right
        exact ⟨s, by omega, by simp [hF, h2]⟩

/-- Within the subset and the characters of the bitmap, the outer loop throws
`error_consistency` when fewer plain positions are left than bits. -/
theorem init_loop_fails {bitmap : Var} {subset : Subset} {b_cur : Nat} :
    ∀ {s_cur : Nat} (refs : List Nat), s_cur < subset.length → b_cur < bitmap.value.length →
    (plain_below subset (s_cur + 1)).length ≤ b_cur →
    (Bitmap.init_loop bitmap subset b_cur s_cur refs).1 = .error (.consistency []) := by
  induction b_cur with
  | zero =>
    intro s_cur refs hs hb hp
    unfold Bitmap.init_loop
    rcases init_skip_total hs with ⟨_, h2⟩ | ⟨s, _, h2⟩
    · simp [h2]
    · have := init_skip_ok h2
      rw [this] at hp
      simp at hp
  | succ b ih =>
    intro s_cur refs hs hb hp
    unfold Bitmap.init_loop
    rcases init_skip_total hs with ⟨_, h2⟩ | ⟨s, hle, h2⟩
    · simp [h2]
    · have hpl := init_skip_ok h2
      rw [hpl] at hp
      simp only [h2, List.getElem?_eq_getElem hb]
      by_cases hs0 : s = 0
      · simp [hs0]
      · simp only [hs0, if_false]
        apply ih
        · omega
        · omega
        · have : s - 1 + 1 = s := by omega
          rw [this]
          simpa using hp

theorem old_anchor_after {b : Bitmap} (h : b.old_anchor ≠ 0) (c : BitmapCall) :
    (b.after c).old_anchor = b.old_anchor := by
  cases c with
  | init bitmap subset anchor =>
    simp [Bitmap.after, init_eq, Bitmap.effective_anchor, h]
  | next =>
    show b.next.2.old_anchor = b.old_anchor
    unfold Bitmap.next
    cases b.iter with
    | zero => rfl
    | succ k => cases hk : b.refs[k]? <;> simp [hk]
  | eob => rfl

theorem old_anchor_after_all (calls : List BitmapCall) :
    ∀ {b : Bitmap}, b.old_anchor ≠ 0 → (b.after_all calls).old_anchor = b.old_anchor := by
  induction calls with
  | nil => intro b _; rfl
  | cons c cs ih =>
    intro b h
    have hc := old_anchor_after h c
    show ((b.after c).after_all cs).old_anchor = b.old_anchor
    rw [ih (by rw [hc]; exact h), hc]

/-! ## Bitmap tracker: properties -/

/-- C1. After `reset()`, a successful `init(bitmap, subset, a)` followed by the
draining loop yields exactly `bitmap_targets bitmap subset a`: for each bit
`i < L` in increasing order whose character is `+`, the `(L - i)`-th plain
position met walking backward from `a - 1`. Draining for `fuel` rounds yields the
first `fuel` of these references, and `eob()` holds afterwards exactly when all of
them have been consumed. At least `L` plain positions lie below `a`, so every bit
has its position, and every reference is a position below `a` of class F = 0. -/
theorem bitmap_init_drain (b0 b1 : Bitmap) (bitmap : Var) (subset : Subset) (a : Nat)
    (h : b0.reset.init bitmap subset a = (.ok (), b1)) :
    (∀ fuel, (b1.drain fuel).1 = (bitmap_targets bitmap subset a).take fuel ∧
      ((b1.drain fuel).2.eob = true ↔ (bitmap_targets bitmap subset a).length ≤ fuel)) ∧
    1 ≤ bitmap.info.len ∧
    bitmap.info.len ≤ (plain_below subset a).length ∧
    ∀ r ∈ bitmap_targets bitmap subset a,
      r < a ∧ ∃ v, subset[r]? = some v ∧ WR_VAR_F v.code = 0 := by
  obtain ⟨hl, _, hlen, hb1⟩ := init_ok h
  have hanchor : b0.reset.effective_anchor a = a := by
    simp [Bitmap.effective_anchor, Bitmap.reset]
  rw [hanchor] at hlen hb1
  refine ⟨?_, by omega, hlen, ?_⟩
  · intro fuel
    obtain ⟨h1, h2⟩ := drain_spec fuel b1 (by rw [hb1]; simp)
    rw [h1, h2]
    subst hb1
    constructor
    · show List.take fuel (List.take (bitmap_targets bitmap subset a).length
          (bitmap_targets bitmap subset a).reverse).reverse = _
      have hall : List.take (bitmap_targets bitmap subset a).length
          (bitmap_targets bitmap subset a).reverse = (bitmap_targets bitmap subset a).reverse :=
        List.take_of_length_le (by simp)
      rw [hall, List.reverse_reverse]
    · simp [Bitmap.eob]
      omega
  · intro r hr
    unfold bitmap_targets at hr
    rw [List.mem_filterMap] at hr
    obtain ⟨i, _, hi⟩ := hr
    split at hi
    · exact mem_plain_below (List.getElem?_mem hi)
    · cases hi

/-- A run of C1: the bitmap `+-+` anchored at position 4 of `ex_subset`. -/
theorem bitmap_init_drain_witness :
    (∀ fuel, (((ex_tracker.reset.init (ex_bitmap ['+', '-', '+']) ex_subset 4).2).drain fuel).1 =
        (bitmap_targets (ex_bitmap ['+', '-', '+']) ex_subset 4).take fuel ∧
      ((((ex_tracker.reset.init (ex_bitmap ['+', '-', '+']) ex_subset 4).2).drain fuel).2.eob = true ↔
        (bitmap_targets (ex_bitmap ['+', '-', '+']) ex_subset 4).length ≤ fuel)) ∧
    1 ≤ (ex_bitmap ['+', '-', '+']).info.len ∧
    (ex_bitmap ['+', '-', '+']).info.len ≤ (plain_below ex_subset 4).length ∧
    ∀ r ∈ bitmap_targets (ex_bitmap ['+', '-', '+']) ex_subset 4,
      r < 4 ∧ ∃ v, ex_subset[r]? = some v ∧ WR_VAR_F v.code = 0 :=
  bitmap_init_drain ex_tracker _ (ex_bitmap ['+', '-', '+']) ex_subset 4 rfl

/-- C2. `Bitmap::init` throws `error_consistency`, whatever the state of the
tracker, (1) when the declared length of the bitmap is 0, (2) when the anchor it
works with (the remembered first anchor, else the argument) is 0, and (3) when
fewer than `L` plain positions lie below that anchor, the anchor being a position
of the subset (at most its size) and the bitmap value holding its `L` declared
characters, so that every access of the walk is defined. -/
theorem bitmap_init_fails (self : Bitmap) (bitmap : Var) (subset : Subset) (anchor : Nat)
    (h : bitmap.info.len = 0 ∨ self.effective_anchor anchor = 0 ∨
      (self.effective_anchor anchor ≤ subset.length ∧
        bitmap.info.len ≤ bitmap.value.length ∧
        (plain_below subset (self.effective_anchor anchor)).length < bitmap.info.len)) :
    (self.init bitmap subset anchor).1 = .error (.consistency []) := by
  rw [init_eq]
  generalize self.effective_anchor anchor = a at h ⊢
  show (Bitmap.init_from bitmap subset a).1 = _
  unfold Bitmap.init_from
  by_cases hl : bitmap.info.len = 0
  · simp [hl]
  · by_cases ha : a = 0
    · simp [hl, ha]
    · simp only [hl, ha, if_false]
      rcases h with h | h | ⟨h1, h2, h3⟩
      · exact absurd h hl
      · exact absurd h ha
      · apply init_loop_fails
        · omega
        · omega
        · have : a - 1 + 1 = a := by omega
          rw [this]
          omega

/-- A run of C2, case (3): a bitmap of three bits anchored at position 2 of
`ex_subset`, below which only two plain positions lie. -/
theorem bitmap_init_fails_witness :
    (ex_tracker.reset.init (ex_bitmap ['+', '-', '+']) ex_subset 2).1 =
      .error (.consistency []) :=
  bitmap_init_fails ex_tracker.reset (ex_bitmap ['+', '-', '+']) ex_subset 2
    (Or.inr (Or.inr ⟨by decide, by decide, by decide⟩))

/-- C3. After `reset()` and a first `init` with anchor `a1 > 0` (successful or
not), and after any further calls of `init`, `next` and `eob`, the remembered
anchor is still `a1`; a call `init(b, s, a2)` is then the same as `init(b, s, a1)`
for every `a2` (same outcome, same tracker afterwards), it has the outcome and the
references of `init(b, s, a1)` on a freshly reset tracker, and it leaves `a1`
remembered. `reset()` clears the remembered anchor. -/
theorem sticky_anchor (b0 : Bitmap) (bitmap1 : Var) (subset1 : Subset) (a1 : Nat)
    (h : 0 < a1) (calls : List BitmapCall) (b : Var) (s : Subset) (a2 : Nat) :
    (((b0.reset.init bitmap1 subset1 a1).2).after_all calls).old_anchor = a1 ∧
    (((b0.reset.init bitmap1 subset1 a1).2).after_all calls).init b s a2 =
      (((b0.reset.init bitmap1 subset1 a1).2).after_all calls).init b s a1 ∧
    ((((b0.reset.init bitmap1 subset1 a1).2).after_all calls).init b s a2).1 =
      (b0.reset.init b s a1).1 ∧
    ((((b0.reset.init bitmap1 subset1 a1).2).after_all calls).init b s a2).2.refs =
      (b0.reset.init b s a1).2.refs ∧
    ((((b0.reset.init bitmap1 subset1 a1).2).after_all calls).init b s a2).2.old_anchor = a1 ∧
    ((((b0.reset.init bitmap1 subset1 a1).2).after_all calls).reset).old_anchor = 0 := by
  have ha1 : a1 ≠ 0 := by omega
  have hfirst : (b0.reset.init bitmap1 subset1 a1).2.old_anchor = a1 := by
    simp [init_eq, Bitmap.effective_anchor, Bitmap.reset]
  have hkeep : (((b0.reset.init bitmap1 subset1 a1).2).after_all calls).old_anchor = a1 := by
    rw [old_anchor_after_all calls (by rw [hfirst]; exact ha1), hfirst]
  generalize ((b0.reset.init bitmap1 subset1 a1).2).after_all calls = t at hkeep ⊢
  have heff : ∀ a, t.effective_anchor a = a1 := by
    intro a
    simp [Bitmap.effective_anchor, hkeep, ha1]
  have hfresh : b0.reset.effective_anchor a1 = a1 := by
    simp [Bitmap.effective_anchor, Bitmap.reset]
  refine ⟨hkeep, ?_, ?_, ?_, ?_, rfl⟩
  · rw [init_eq, init_eq, heff, heff]
  · rw [init_eq, init_eq, heff, hfresh]
  · rw [init_eq, init_eq, heff, hfresh]
  · rw [init_eq, heff]

/-- A run of C3: a first bitmap anchored at 4, a reference consumed, then a second
bitmap with the anchor argument 1. -/
theorem sticky_anchor_witness :
    (((ex_tracker.reset.init (ex_bitmap ['+', '-', '+']) ex_subset 4).2).after_all
      [.next]).old_anchor = 4 ∧
    (((ex_tracker.reset.init (ex_bitmap ['+', '-', '+']) ex_subset 4).2).after_all
      [.next]).init (ex_bitmap ['-', '+']) ex_subset 1 =
      (((ex_tracker.reset.init (ex_bitmap ['+', '-', '+']) ex_subset 4).2).after_all
        [.next]).init (ex_bitmap ['-', '+']) ex_subset 4 ∧
    ((((ex_tracker.reset.init (ex_bitmap ['+', '-', '+']) ex_subset 4).2).after_all
      [.next]).init (ex_bitmap ['-', '+']) ex_subset 1).1 =
      (ex_tracker.reset.init (ex_bitmap ['-', '+']) ex_subset 4).1 ∧
    ((((ex_tracker.reset.init (ex_bitmap ['+', '-', '+']) ex_subset 4).2).after_all
      [.next]).init (ex_bitmap ['-', '+']) ex_subset 1).2.refs =
      (ex_tracker.reset.init (ex_bitmap ['-', '+']) ex_subset 4).2.refs ∧
    ((((ex_tracker.reset.init (ex_bitmap ['+', '-', '+']) ex_subset 4).2).after_all
      [.next]).init (ex_bitmap ['-', '+']) ex_subset 1).2.old_anchor = 4 ∧
    ((((ex_tracker.reset.init (ex_bitmap ['+', '-', '+']) ex_subset 4).2).after_all
      [.next]).reset).old_anchor = 0 :=
  sticky_anchor ex_tracker (ex_bitmap ['+', '-', '+']) ex_subset 4 (by decide) [.next]
    (ex_bitmap ['-', '+']) ex_subset 1

/-! ## Interpreter core: properties -/

theorem get_varinfo_inactive (self : Visitor) (code : Varcode)
    (h1 : self.c_scale_change = 0) (h2 : self.c_width_change = 0)
    (h3 : self.c_string_len_override = 0) :
    self.get_varinfo code = self.btable.query code := by
  unfold Visitor.get_varinfo
  cases hq : self.btable.query code <;> simp [h1, h2, h3]

/-- C4. `get_varinfo`: with no scale change, no width change and no string length
override the result is the outcome of `btable->query(code)`; otherwise, `base`
being the record that `query` returns, it is the outcome of
`btable->query_altered(code, base.scale + scale change, w)` with
`w = 8 * override` for a string under a non-zero override and
`w = base.bit_len + width change` in every other case. A failure of `query` is
passed on. -/
theorem get_varinfo_spec (self : Visitor) (code : Varcode) :
    (self.c_scale_change = 0 → self.c_width_change = 0 → self.c_string_len_override = 0 →
      self.get_varinfo code = self.btable.query code) ∧
    (∀ base, self.btable.query code = .ok base →
      ¬ (self.c_scale_change = 0 ∧ self.c_width_change = 0 ∧ self.c_string_len_override = 0) →
      self.get_varinfo code =
        self.btable.query_altered code (base.scale + self.c_scale_change)
          (if base.is_string = true ∧ self.c_string_len_override ≠ 0 then
            8 * (self.c_string_len_override : Int)
          else (base.bit_len : Int) + self.c_width_change)) ∧
    (∀ e, self.btable.query code = .error e → self.get_varinfo code = .error e) := by
  refine ⟨?_, ?_, ?_⟩
  · exact get_varinfo_inactive self code
  · intro base hq hnz
    unfold Visitor.get_varinfo
    simp only [hq, hnz, if_false]
    have hscale : (if self.c_scale_change ≠ 0 then base.scale + self.c_scale_change
        else base.scale) = base.scale + self.c_scale_change := by
      by_cases h : self.c_scale_change = 0 <;> simp [h]
    have hwidth : (if self.c_width_change ≠ 0 then (base.bit_len : Int) + self.c_width_change
        else (base.bit_len : Int)) = (base.bit_len : Int) + self.c_width_change := by
      by_cases h : self.c_width_change = 0 <;> simp [h]
    rw [hscale, hwidth, Int.mul_comm]
  · intro e hq
    unfold Visitor.get_varinfo
    simp [hq]

/-- A run of C4 on `ex_visitor` (scale change 2, width change -3) for B12001. -/
theorem get_varinfo_spec_witness :
    ex_visitor.get_varinfo (WR_VAR 0 12 1) =
      ex_visitor.btable.query_altered (WR_VAR 0 12 1)
        ((ex_info (WR_VAR 0 12 1)).scale + ex_visitor.c_scale_change)
        (if (ex_info (WR_VAR 0 12 1)).is_string = true ∧
            ex_visitor.c_string_len_override ≠ 0 then
          8 * (ex_visitor.c_string_len_override : Int)
        else ((ex_info (WR_VAR 0 12 1)).bit_len : Int) + ex_visitor.c_width_change) :=
  (get_varinfo_spec ex_visitor (WR_VAR 0 12 1)).2.1 (ex_info (WR_VAR 0 12 1)) rfl (by decide)

/-- C5. `Visitor::do_start_subset` leaves, whatever the state before: scale
change 0, width change 0, string length override 0, associated field width 0 and
meaning 63, no bitmap request, `data_pos` 0, and the bitmap tracker reset (no
active bitmap, no remembered anchor, no reference, `eob()` true); the subset is
bound and the table is kept. Two interpreters with the same table are in the same
state after it, and `get_varinfo` then returns what `btable->query` returns. -/
theorem do_start_subset_resets (self : Visitor) (subset_no : Nat) (current_subset : Subset) :
    (self.do_start_subset subset_no current_subset).c_scale_change = 0 ∧
    (self.do_start_subset subset_no current_subset).c_width_change = 0 ∧
    (self.do_start_subset subset_no current_subset).c_string_len_override = 0 ∧
    (self.do_start_subset subset_no current_subset).c04_bits = 0 ∧
    (self.do_start_subset subset_no current_subset).c04_meaning = 63 ∧
    (self.do_start_subset subset_no current_subset).want_bitmap = false ∧
    (self.do_start_subset subset_no current_subset).data_pos = 0 ∧
    (self.do_start_subset subset_no current_subset).bitmap =
      { bitmap := none, old_anchor := 0, refs := [], iter := 0 } ∧
    (self.do_start_subset subset_no current_subset).bitmap.eob = true ∧
    (self.do_start_subset subset_no current_subset).current_subset = current_subset ∧
    (self.do_start_subset subset_no current_subset).btable = self.btable ∧
    (∀ (other : Visitor) (other_no : Nat), other.btable = self.btable →
      other.do_start_subset other_no current_subset =
        self.do_start_subset subset_no current_subset) ∧
    (∀ code, (self.do_start_subset subset_no current_subset).get_varinfo code =
      self.btable.query code) := by
  refine ⟨rfl, rfl, rfl, rfl, rfl, rfl, rfl, rfl, rfl, rfl, rfl, ?_, ?_⟩
  · intro other other_no h
    simp [Visitor.do_start_subset, Bitmap.reset, h]
  · intro code
    exact get_varinfo_inactive _ code rfl rfl rfl

/-- A run of C5 from `ex_visitor`, where a scale and a width change are active. -/
theorem do_start_subset_resets_witness :
    (ex_visitor.do_start_subset 0 ex_subset).get_varinfo (WR_VAR 0 12 1) =
      .ok (ex_info (WR_VAR 0 12 1)) ∧
    ex_visitor.get_varinfo (WR_VAR 0 12 1) ≠ .ok (ex_info (WR_VAR 0 12 1)) :=
  ⟨((do_start_subset_resets ex_visitor 0 ex_subset).2.2.2.2.2.2.2.2.2.2.2.2 _).trans rfl,
    by decide⟩

/-! ## Sequencing: lemmas -/

theorem M.bind_apply {σ α γ : Type} (x : M σ α) (f : α → M σ γ) (s : σ) :
    (x >>= f) s =
      match x s with
      | (.ok a, s) => f a s
      | (.error e, s) => (.error e, s) := rfl

theorem M.pure_apply {σ α : Type} (a : α) (s : σ) : (pure a : M σ α) s = (.ok a, s) := rfl

theorem M.bind_assoc {σ α γ δ : Type} (x : M σ α) (f : α → M σ γ) (g : γ → M σ δ) :
    x >>= f >>= g = x >>= fun a => f a >>= g := by
  funext s
  simp only [M.bind_apply]
  rcases x s with ⟨r, s1⟩
  cases r <;> rfl

/-- The loop of `r_replication` is the sequence of its iterations. -/
theorem r_replication_loop_eq {β Ops : Type} (d : Delegate β Ops)
    (visit : Ops → M (Interp β) Unit) (ops : Ops) (left : Nat) :
    ∀ i, Visitor.r_replication_loop d visit ops i left =
      M.sequence ((List.range' i left).map fun i =>
        (do Interp.call (d.do_start_repetition i); visit ops)) := by
  induction left with
  | zero => intro i; rfl
  | succ n ih =>
    intro i
    rw [List.range'_succ, List.map_cons]
    unfold Visitor.r_replication_loop M.sequence
    rw [ih (i + 1), M.bind_assoc]

theorem recorder_do_var {Ops : Type} (answer : Varinfo → Var) (bitmap_var : Var)
    (info : Varinfo) (v : Visitor) (log : List Event) :
    (recorder answer bitmap_var : Delegate (List Event) Ops).do_var info v log =
      (.ok (), log ++ [.var info]) := rfl

theorem recorder_do_attr {Ops : Type} (answer : Varinfo → Var) (bitmap_var : Var)
    (info : Varinfo) (var_pos : Nat) (attr_code : Varcode) (v : Visitor) (log : List Event) :
    (recorder answer bitmap_var : Delegate (List Event) Ops).do_attr info var_pos attr_code v log =
      (.ok (), log ++ [.attr info var_pos attr_code]) := rfl

theorem recorder_do_semantic_var {Ops : Type} (answer : Varinfo → Var) (bitmap_var : Var)
    (info : Varinfo) (v : Visitor) (log : List Event) :
    (recorder answer bitmap_var : Delegate (List Event) Ops).do_semantic_var info v log =
      (.ok (answer info), log ++ [.semantic_var info]) := rfl

theorem recorder_do_associated_field {Ops : Type} (answer : Varinfo → Var) (bitmap_var : Var)
    (bit_count : Nat) (significance : Int) (v : Visitor) (log : List Event) :
    (recorder answer bitmap_var : Delegate (List Event) Ops).do_associated_field
      bit_count significance v log =
      (.ok (), log ++ [.associated_field bit_count significance]) := rfl

theorem recorder_do_bitmap {Ops : Type} (answer : Varinfo → Var) (bitmap_var : Var)
    (code delayed_code : Varcode) (ops : Ops) (v : Visitor) (log : List Event) :
    (recorder answer bitmap_var : Delegate (List Event) Ops).do_bitmap code delayed_code ops v log =
      (.ok bitmap_var, log ++ [.bitmap code delayed_code]) := rfl

theorem recorder_do_start_repetition {Ops : Type} (answer : Varinfo → Var) (bitmap_var : Var)
    (idx : Nat) (v : Visitor) (log : List Event) :
    (recorder answer bitmap_var : Delegate (List Event) Ops).do_start_repetition idx v log =
      (.ok (), log ++ [.start_repetition idx]) := rfl

/-- The loop of `r_replication` on the recording backend. -/
theorem r_replication_loop_recorded {Ops : Type} (answer : Varinfo → Var) (bitmap_var : Var)
    (ops : Ops) (left : Nat) :
    ∀ (i : Nat) (s : Interp (List Event)),
    Visitor.r_replication_loop (recorder answer bitmap_var) recorded_group ops i left s =
      (.ok (), { s with ext := s.ext ++ (List.range' i left).flatMap fun i =>
        [.start_repetition i, .traverse s.vis.data_pos] }) := by
  induction left with
  | zero =>
    intro i s
    simp [Visitor.r_replication_loop, M.pure_apply]
  | succ n ih =>
    intro i s
    unfold Visitor.r_replication_loop
    simp only [M.bind_apply, Interp.call, recorder_do_start_repetition, recorded_group, ih,
      List.range'_succ, List.flatMap_cons]
    simp

/-- C6. `r_replication` with a fixed count `N = WR_VAR_Y(code) > 0` and no bitmap
request pending. On every backend and for every group it is the sequence
`do_start_repetition(0); ops.visit(*this); ...; do_start_repetition(N-1);
ops.visit(*this)`, stopping at the first call that throws. On the recording
backend the calls recorded are exactly these `2 * N`, in this order (so no
`do_semantic_var`), and the `Visitor` members, `data_pos` among them, are
unchanged. -/
theorem r_replication_fixed (code delayed_code : Varcode) (hN : 0 < WR_VAR_Y code) :
    (∀ (β Ops : Type) (d : Delegate β Ops) (visit : Ops → M (Interp β) Unit) (ops : Ops)
        (s : Interp β), s.vis.want_bitmap = false →
      Visitor.r_replication d visit code delayed_code ops s =
        M.sequence ((List.range (WR_VAR_Y code)).map fun i =>
          (do Interp.call (d.do_start_repetition i); visit ops)) s) ∧
    (∀ (Ops : Type) (answer : Varinfo → Var) (bitmap_var : Var) (ops : Ops)
        (t : Interp (List Event)), t.vis.want_bitmap = false →
      Visitor.r_replication (recorder answer bitmap_var) recorded_group code delayed_code ops t =
        (.ok (), { t with ext := t.ext ++ (List.range (WR_VAR_Y code)).flatMap fun i =>
          [.start_repetition i, .traverse t.vis.data_pos] })) := by
  have hne : WR_VAR_Y code ≠ 0 := by omega
  constructor
  · intro β Ops d visit ops s hw
    unfold Visitor.r_replication
    simp only [M.bind_apply, Interp.read, hw, hne, Bool.false_eq_true, if_false, M.pure_apply]
    rw [r_replication_loop_eq, List.range_eq_range']
  · intro Ops answer bitmap_var ops t hw
    unfold Visitor.r_replication
    simp only [M.bind_apply, Interp.read, hw, hne, Bool.false_eq_true, if_false, M.pure_apply]
    rw [r_replication_loop_recorded, List.range_eq_range']

/-- A run of C6: the replication `R 1 02` (two repetitions) on `ex_interp`. -/
theorem r_replication_fixed_witness :
    Visitor.r_replication (recorder ex_answer (ex_bitmap ['+'])) recorded_group
        (WR_VAR 1 1 2) 0 () ex_interp =
      (.ok (), { ex_interp with ext := ex_interp.ext ++
        (List.range (WR_VAR_Y (WR_VAR 1 1 2))).flatMap fun i =>
          [.start_repetition i, .traverse ex_interp.vis.data_pos] }) :=
  (r_replication_fixed (WR_VAR 1 1 2) 0 (by decide)).2 Unit ex_answer (ex_bitmap ['+']) ()
    ex_interp rfl

/-- C7. `r_replication` with a delayed count (`WR_VAR_Y(code) = 0`) and no bitmap
request pending. On every backend it is: `btable->query` of `delayed_code`, or
of B31012 when `delayed_code` is 0; one `do_semantic_var` on that record; the
count read with `enqi()`; `++data_pos`; then the sequence of iterations
`do_start_repetition(i); ops.visit(*this)` for `i` below the count. On the
recording backend, when the value returned reads as the integer `c`: exactly one
`do_semantic_var` is recorded, then the iterations `0 .. count - 1`, each started
with `data_pos` already advanced by one, and `data_pos` ends one higher. The count
is `c` converted to `unsigned`, which is `c` itself for `0 ≤ c < 2^32`. -/
theorem r_replication_delayed (code delayed_code : Varcode) (hY : WR_VAR_Y code = 0) :
    (∀ (β Ops : Type) (d : Delegate β Ops) (visit : Ops → M (Interp β) Unit) (ops : Ops)
        (s : Interp β), s.vis.want_bitmap = false →
      Visitor.r_replication d visit code delayed_code ops s =
        (do
          let info ← M.lift
            (s.vis.btable.query (if delayed_code ≠ 0 then delayed_code else WR_VAR 0 31 12))
          let var ← Interp.call (d.do_semantic_var info)
          let n ← M.lift var.enqi
          Interp.update fun v => { v with data_pos := v.data_pos + 1 }
          M.sequence ((List.range (to_unsigned n)).map fun i =>
            (do Interp.call (d.do_start_repetition i); visit ops))) s) ∧
    (∀ (Ops : Type) (answer : Varinfo → Var) (bitmap_var : Var) (ops : Ops)
        (t : Interp (List Event)) (info : Varinfo) (c : Int),
      t.vis.want_bitmap = false →
      t.vis.btable.query (if delayed_code ≠ 0 then delayed_code else WR_VAR 0 31 12) =
        .ok info →
      (answer info).enqi = .ok c →
      Visitor.r_replication (recorder answer bitmap_var) recorded_group code delayed_code ops t =
        (.ok (),
          { vis := { t.vis with data_pos := t.vis.data_pos + 1 }
            ext := t.ext ++ .semantic_var info ::
              (List.range (to_unsigned c)).flatMap fun i =>
                [.start_repetition i, .traverse (t.vis.data_pos + 1)] })) ∧
    (∀ c : Int, 0 ≤ c → c < 4294967296 → (to_unsigned c : Int) = c) := by
  refine ⟨?_, ?_, ?_⟩
  · intro β Ops d visit ops s hw
    unfold Visitor.r_replication
    simp only [M.bind_apply, Interp.read, hw, hY, Bool.false_eq_true, if_false, if_true,
      M.pure_apply, r_replication_loop_eq, List.range_eq_range']
  · intro Ops answer bitmap_var ops t info c hw hq hc
    unfold Visitor.r_replication
    simp only [M.bind_apply, Interp.read, hw, hY, Bool.false_eq_true, if_false, if_true,
      M.pure_apply, M.lift, hq, Interp.call, recorder_do_semantic_var, hc, Interp.update,
      r_replication_loop_recorded, List.range_eq_range']
    simp
  · intro c h0 h1
    unfold to_unsigned
    rw [Int.emod_eq_of_lt h0 h1]
    exact Int.toNat_of_nonneg h0

/-- A run of C7: a delayed replication on `ex_interp`, the backend answering 3. -/
theorem r_replication_delayed_witness :
    Visitor.r_replication (recorder ex_answer (ex_bitmap ['+'])) recorded_group
        (WR_VAR 1 1 0) (WR_VAR 0 31 1) () ex_interp =
      (.ok (),
        { vis := { ex_interp.vis with data_pos := ex_interp.vis.data_pos + 1 }
          ext := ex_interp.ext ++ .semantic_var (ex_info (WR_VAR 0 31 1)) ::
            (List.range (to_unsigned 3)).flatMap fun i =>
              [.start_repetition i, .traverse (ex_interp.vis.data_pos + 1)] }) :=
  (r_replication_delayed (WR_VAR 1 1 0) (WR_VAR 0 31 1) (by decide)).2.1 Unit ex_answer
    (ex_bitmap ['+']) () ex_interp (ex_info (WR_VAR 0 31 1)) 3 rfl rfl rfl

/-- C8, as stated, fails: `c_associated_field` does not look at its argument
`nbits`. With `WR_VAR_Y(code) = 0` it returns normally for `nbits = 40 > 32`, and
also for `nbits = 8` while an associated field of 8 bits is active. -/
theorem c_associated_field_nbits_counterexample :
    (32 < 40 ∧
      (Visitor.c_associated_field (recorder ex_answer (ex_bitmap ['+']) : Delegate _ Unit)
        (WR_VAR 2 4 0) 0 40 ex_interp).1 = .ok ()) ∧
    (8 ≠ 0 ∧ ex_interp_c04.vis.c04_bits ≠ 0 ∧
      (Visitor.c_associated_field (recorder ex_answer (ex_bitmap ['+']) : Delegate _ Unit)
        (WR_VAR 2 4 0) 0 8 ex_interp_c04).1 = .ok ()) := by
  decide

/-- C8, amended. `c_associated_field(code, sig_code, nbits)` throws
`error_unimplemented` whenever the item field `WR_VAR_Y(code)` is non-zero while an
associated field of non-zero width is active, and whenever `WR_VAR_Y(code) > 32`,
for every `nbits`; the object is then exactly as before the call (no operation of
the backend has run, `c04_bits`, `c04_meaning` and `data_pos` are unchanged). In
particular this is so when `nbits` is the item field of `code`. -/
theorem c_associated_field_fails {β Ops : Type} (d : Delegate β Ops)
    (code sig_code : Varcode) (nbits : Nat) (s : Interp β)
    (h : (WR_VAR_Y code ≠ 0 ∧ s.vis.c04_bits ≠ 0) ∨ 32 < WR_VAR_Y code) :
    Visitor.c_associated_field d code sig_code nbits s =
      (.error (.unimplemented
        (if WR_VAR_Y code ≠ 0 ∧ s.vis.c04_bits ≠ 0 then [] else [WR_VAR_Y code])), s) := by
  unfold Visitor.c_associated_field
  by_cases h1 : WR_VAR_Y code ≠ 0 ∧ s.vis.c04_bits ≠ 0
  · simp [M.bind_apply, Interp.read, M.raise, h1.1, h1.2]
  · have h2 : 32 < WR_VAR_Y code := by
      rcases h with h | h
      · exact absurd h h1
      · exact h
    have hY : WR_VAR_Y code ≠ 0 := by omega
    have hc : s.vis.c04_bits = 0 := by
      by_contra hc
      exact h1 ⟨hY, hc⟩
    simp [M.bind_apply, Interp.read, M.raise, M.pure_apply, hY, hc, h2]

/-- A run of C8 as amended: the operator `C 04 040` (40 bits) on `ex_interp`. -/
theorem c_associated_field_fails_witness :
    Visitor.c_associated_field (recorder ex_answer (ex_bitmap ['+']) : Delegate _ Unit)
        (WR_VAR 2 4 40) (WR_VAR 0 31 21) 40 ex_interp =
      (.error (.unimplemented
        (if WR_VAR_Y (WR_VAR 2 4 40) ≠ 0 ∧ ex_interp.vis.c04_bits ≠ 0 then []
          else [WR_VAR_Y (WR_VAR 2 4 40)])), ex_interp) :=
  c_associated_field_fails _ (WR_VAR 2 4 40) (WR_VAR 0 31 21) 40 ex_interp
    (Or.inr (by decide))

/-! ## Storage-bound bindings: properties -/

/-- `BaseVisitor::do_start_subset`, by cases on the subset number. -/
theorem base_do_start_subset_eq (subset_no : Nat) (current_subset : Subset)
    (s : Interp BaseVisitor) :
    BaseVisitor.do_start_subset subset_no current_subset s =
      if h : subset_no < s.ext.bulletin.subsets.length then
        (.ok (),
          { vis := { s.vis.do_start_subset subset_no current_subset with
                     current_subset := s.ext.bulletin.subsets[subset_no] }
            ext := { s.ext with current_subset_no := subset_no, current_var := 0 } })
      else
        (.error (.consistency [subset_no, s.ext.bulletin.subsets.length]),
          { s with vis := s.vis.do_start_subset subset_no current_subset }) := by
  unfold BaseVisitor.do_start_subset
  by_cases h : subset_no < s.ext.bulletin.subsets.length
  · have hge : ¬ subset_no ≥ s.ext.bulletin.subsets.length := by omega
    simp [M.bind_apply, M.pure_apply, Interp.update, M.raise, M.lift, h, hge,
      List.getElem?_eq_getElem h]
  · have hge : subset_no ≥ s.ext.bulletin.subsets.length := by omega
    simp [M.bind_apply, Interp.update, M.raise, h, hge]

/-- `ConstBaseVisitor::do_start_subset`, by cases on the subset number. -/
theorem const_do_start_subset_eq (subset_no : Nat) (current_subset : Subset)
    (s : Interp ConstBaseVisitor) :
    ConstBaseVisitor.do_start_subset subset_no current_subset s =
      if subset_no < s.ext.bulletin.subsets.length then
        (.ok (),
          { vis := s.vis.do_start_subset subset_no current_subset
            ext := { s.ext with current_subset_no := subset_no, current_var := 0 } })
      else
        (.error (.consistency [subset_no, s.ext.bulletin.subsets.length]),
          { s with vis := s.vis.do_start_subset subset_no current_subset }) := by
  unfold ConstBaseVisitor.do_start_subset
  by_cases h : subset_no < s.ext.bulletin.subsets.length
  · have hge : ¬ subset_no ≥ s.ext.bulletin.subsets.length := by omega
    simp [M.bind_apply, M.pure_apply, Interp.update, M.raise, h, hge]
  · have hge : subset_no ≥ s.ext.bulletin.subsets.length := by omega
    simp [M.bind_apply, Interp.update, M.raise, h, hge]

/-- `b_variable` on its second branch, with no associated field active. -/
theorem b_variable_recorded_plain {Ops : Type} (answer : Varinfo → Var) (bitmap_var : Var)
    (code : Varcode) (info : Varinfo) (t : Interp (List Event))
    (hinfo : t.vis.get_varinfo code = .ok info)
    (hc : ¬ (WR_VAR_F code = 0 ∧ WR_VAR_X code = 33 ∧ t.vis.bitmap.eob = false))
    (h04 : t.vis.c04_bits = 0) :
    Visitor.b_variable (recorder answer bitmap_var : Delegate (List Event) Ops) code t =
      (.ok (), { vis := { t.vis with data_pos := t.vis.data_pos + 1 }
                 ext := t.ext ++ [.var info] }) := by
  unfold Visitor.b_variable
  simp only [M.bind_apply, Interp.read, M.lift, hinfo, hc, if_false, h04, gt_iff_lt,
    Nat.lt_irrefl, M.pure_apply, Interp.call, recorder_do_var, Interp.update]

/-- `c_quality_information_bitmap` on an operator with item field 0. -/
theorem c_quality_information_bitmap_ok {β : Type} (code : Varcode) (t : Interp β)
    (hY : WR_VAR_Y code = 0) :
    Visitor.c_quality_information_bitmap code t =
      (.ok (), { t with vis := { t.vis with want_bitmap := true } }) := by
  unfold Visitor.c_quality_information_bitmap
  simp [M.bind_apply, M.pure_apply, hY, Interp.update]

/-- `r_replication` with a bitmap request pending, when `Bitmap::init` returns
normally. -/
theorem r_replication_bitmap_recorded {Ops : Type} (answer : Varinfo → Var) (bitmap_var : Var)
    (visit : Ops → M (Interp (List Event)) Unit) (code delayed_code : Varcode) (ops : Ops)
    (t : Interp (List Event)) (tracker : Bitmap)
    (hw : t.vis.want_bitmap = true)
    (hinit : t.vis.bitmap.init bitmap_var t.vis.current_subset t.vis.data_pos =
      (.ok (), tracker)) :
    Visitor.r_replication (recorder answer bitmap_var) visit code delayed_code ops t =
      (.ok (),
        { vis := { t.vis with
                   bitmap := tracker
                   data_pos :=
                     if (if WR_VAR_Y code = 0 ∧ delayed_code = 0 then WR_VAR 0 31 12
                         else delayed_code) ≠ 0
                     then t.vis.data_pos + 1 else t.vis.data_pos
                   want_bitmap := false }
          ext := t.ext ++ [.bitmap code
            (if WR_VAR_Y code = 0 ∧ delayed_code = 0 then WR_VAR 0 31 12 else delayed_code)] }) := by
  unfold Visitor.r_replication
  simp only [M.bind_apply, Interp.read, hw, if_true, Interp.call, recorder_do_bitmap,
    Interp.on_bitmap, hinit]
  by_cases hd : (if WR_VAR_Y code = 0 ∧ delayed_code = 0 then WR_VAR 0 31 12
      else delayed_code) = 0
  · simp [hd, M.bind_apply, M.pure_apply, Interp.update]
  · simp [hd, M.bind_apply, Interp.update]

/-- `c_substituted_value` with an active bitmap whose next reference is `target`. -/
theorem c_substituted_value_recorded {Ops : Type} (answer : Varinfo → Var) (bitmap_var : Var)
    (code : Varcode) (t : Interp (List Event)) (active : Var) (k target : Nat) (var : Var)
    (hb : t.vis.bitmap.bitmap = some active)
    (hiter : t.vis.bitmap.iter = k + 1)
    (href : t.vis.bitmap.refs[k]? = some target)
    (hvar : t.vis.current_subset[target]? = some var) :
    Visitor.c_substituted_value (recorder answer bitmap_var : Delegate (List Event) Ops) code t =
      (.ok (),
        { vis := { t.vis with bitmap := { t.vis.bitmap with iter := k } }
          ext := t.ext ++ [.attr var.info target var.info.var] }) := by
  unfold Visitor.c_substituted_value
  have hnext : t.vis.bitmap.next = (.ok target, { t.vis.bitmap with iter := k }) := by
    unfold Bitmap.next
    simp [hiter, href]
  simp [M.bind_apply, M.pure_apply, Interp.read, hb, Bitmap.eob, hiter, Interp.on_bitmap,
    hnext, M.lift, hvar, Interp.call, recorder_do_attr]

/-! ## End to end -/

/-- C10, as stated, fails. After `do_start_subset`, the program [B01001]
[C22000] [R01000 over [B01002]] [C23255] on a subset that starts with a value of
B01001, the backend supplying a bitmap of one bit `+`, records three calls:
`do_var` for B01001, `do_bitmap`, and `do_attr` with target 0, the position of
B01001. No `do_var` for B01002 is recorded, no iteration is started, and the
bitmap references position 0, which lies below the anchor 1. With a bitmap of three
bits, one for each claimed repetition, `Bitmap::init` throws instead. -/
theorem end_to_end_counterexample :
    (end_to_end_program (recorder ex_answer (ex_bitmap ['+'])) (WR_VAR 0 1 1) (WR_VAR 0 1 2)
        (WR_VAR 0 31 1)
        { vis := ex_visitor.do_start_subset 0 ex_subset, ext := [] }).1 = .ok () ∧
    (end_to_end_program (recorder ex_answer (ex_bitmap ['+'])) (WR_VAR 0 1 1) (WR_VAR 0 1 2)
        (WR_VAR 0 31 1)
        { vis := ex_visitor.do_start_subset 0 ex_subset, ext := [] }).2.ext =
      [.var (ex_info (WR_VAR 0 1 1)), .bitmap (WR_VAR 1 1 0) (WR_VAR 0 31 1),
        .attr (ex_info (WR_VAR 0 1 1)) 0 (WR_VAR 0 1 1)] ∧
    ¬ (Event.var (ex_info (WR_VAR 0 1 2)) ∈
      (end_to_end_program (recorder ex_answer (ex_bitmap ['+'])) (WR_VAR 0 1 1) (WR_VAR 0 1 2)
        (WR_VAR 0 31 1)
        { vis := ex_visitor.do_start_subset 0 ex_subset, ext := [] }).2.ext) ∧
    (end_to_end_program (recorder ex_answer (ex_bitmap ['+'])) (WR_VAR 0 1 1) (WR_VAR 0 1 2)
        (WR_VAR 0 31 1)
        { vis := ex_visitor.do_start_subset 0 ex_subset, ext := [] }).2.vis.bitmap =
      { bitmap := some (ex_bitmap ['+']), old_anchor := 1, refs := [0], iter := 0 } ∧
    (end_to_end_program (recorder ex_answer (ex_bitmap ['+', '+', '+'])) (WR_VAR 0 1 1)
        (WR_VAR 0 1 2) (WR_VAR 0 31 1)
        { vis := ex_visitor.do_start_subset 0 ex_subset, ext := [] }).1 =
      .error (.consistency []) := by
  decide

/-- C10, amended. After `do_start_subset`, on a subset whose first value is
plain (class F = 0), with `a` known to the table and the backend supplying a
bitmap of one bit `+`, the program [`a`] [C22000] [R01000 over [`b`]] [C23255]
returns normally and records exactly, in this order: one `do_var` for `a`; one
`do_bitmap` (with B31012 as count descriptor when none is given); one `do_attr`
with the metadata and the code of the value stored at position 0 and target 0.
The bitmap is initialised with anchor 1 (the position of `a` plus one) and its
only reference is position 0; the group is not traversed (no `do_var` for `b`, no
`do_start_repetition`); `data_pos` ends at 2. -/
theorem end_to_end_trace (v0 : Visitor) (idx : Nat) (subset : Subset)
    (a b delayed_code : Varcode) (answer : Varinfo → Var) (bitmap_var : Var)
    (log0 : List Event) (info_a : Varinfo) (first : Var)
    (hq : v0.btable.query a = .ok info_a)
    (hsub : subset[0]? = some first)
    (hF : WR_VAR_F first.code = 0)
    (hlen : bitmap_var.info.len = 1)
    (hbit : bitmap_var.value[0]? = some '+') :
    end_to_end_program (recorder answer bitmap_var) a b delayed_code
        { vis := v0.do_start_subset idx subset, ext := log0 } =
      (.ok (),
        { vis := { v0.do_start_subset idx subset with
                   data_pos := 2
                   bitmap := { bitmap := some bitmap_var, old_anchor := 1, refs := [0],
                               iter := 0 } }
          ext := log0 ++
            [.var info_a,
             .bitmap (WR_VAR 1 1 0) (if delayed_code = 0 then WR_VAR 0 31 12 else delayed_code),
             .attr first.info 0 first.info.var] }) := by
  have hinfo : (v0.do_start_subset idx subset).get_varinfo a = .ok info_a := by
    rw [get_varinfo_inactive _ a rfl rfl rfl]
    exact hq
  have hY : WR_VAR_Y (WR_VAR 1 1 0) = 0 := by decide
  have hY2 : WR_VAR_Y (WR_VAR 2 22 0) = 0 := by decide
  have hd : (if delayed_code = 0 then WR_VAR 0 31 12 else delayed_code) ≠ 0 := by
    by_cases h : delayed_code = 0
    · simp [h]; decide
    · simp [h]
  have hinit : (v0.do_start_subset idx subset).bitmap.init bitmap_var subset 1 =
      (.ok (), { bitmap := some bitmap_var, old_anchor := 1, refs := [0], iter := 1 }) := by
    have hskip : Bitmap.init_skip subset 0 = .ok 0 := by
      unfold Bitmap.init_skip
      simp [hsub, hF]
    have hloop : Bitmap.init_loop bitmap_var subset 0 0 [] = (.ok (), [0]) := by
      unfold Bitmap.init_loop
      simp [hskip, hbit]
    simp [Bitmap.init, Visitor.do_start_subset, Bitmap.reset, hlen, hloop]
  unfold end_to_end_program
  rw [M.bind_apply, b_variable_recorded_plain answer bitmap_var a info_a _ hinfo
    (by simp [Visitor.do_start_subset, Bitmap.reset, Bitmap.eob]) rfl]
  simp only []
  rw [M.bind_apply, c_quality_information_bitmap_ok _ _ hY2]
  simp only []
  rw [M.bind_apply, r_replication_bitmap_recorded answer bitmap_var _ _ _ _ _ _ rfl hinit]
  simp only [hY, true_and]
  rw [c_substituted_value_recorded answer bitmap_var _ _ bitmap_var 0 0 first ?h1 ?h2 ?h3 ?h4]
  case h1 => rfl
  case h2 => rfl
  case h3 => rfl
  case h4 => exact hsub
  simp [hd, Visitor.do_start_subset]

/-- A run of C10 as amended, on `ex_subset` with a bitmap of one bit `+`. -/
theorem end_to_end_trace_witness :
    end_to_end_program (recorder ex_answer (ex_bitmap ['+'])) (WR_VAR 0 1 1) (WR_VAR 0 1 2)
        (WR_VAR 0 31 1) { vis := ex_visitor.do_start_subset 0 ex_subset, ext := [] } =
      (.ok (),
        { vis := { ex_visitor.do_start_subset 0 ex_subset with
                   data_pos := 2
                   bitmap := { bitmap := some (ex_bitmap ['+']), old_anchor := 1, refs := [0],
                               iter := 0 } }
          ext := [] ++
            [.var (ex_info (WR_VAR 0 1 1)),
             .bitmap (WR_VAR 1 1 0)
               (if WR_VAR 0 31 1 = 0 then WR_VAR 0 31 12 else WR_VAR 0 31 1),
             .attr (ex_var (WR_VAR 0 1 1)).info 0 (ex_var (WR_VAR 0 1 1)).info.var] }) :=
  end_to_end_trace ex_visitor 0 ex_subset (WR_VAR 0 1 1) (WR_VAR 0 1 2) (WR_VAR 0 31 1)
    ex_answer (ex_bitmap ['+']) [] (ex_info (WR_VAR 0 1 1)) (ex_var (WR_VAR 0 1 1))
    rfl rfl (by decide) rfl rfl

/-! ## Frames and invariants: lemmas -/

theorem M.bind_ok {σ α γ : Type} {x : M σ α} {f : α → M σ γ} {s t : σ} {b : γ}
    (h : (x >>= f) s = (.ok b, t)) : ∃ a s1, x s = (.ok a, s1) ∧ f a s1 = (.ok b, t) := by
  rw [M.bind_apply] at h
  rcases hx : x s with ⟨r, s1⟩
  rw [hx] at h
  cases r with
  | error e => simp at h
  | ok a => exact ⟨a, s1, rfl, h⟩

theorem frames_pure {β α : Type} (a : α) : Interp.frames (pure a : M (Interp β) α) :=
  fun _ => ⟨rfl, rfl⟩

theorem frames_raise {β α : Type} (e : Err) : Interp.frames (M.raise e : M (Interp β) α) :=
  fun _ => ⟨rfl, rfl⟩

theorem frames_lift {β α : Type} (r : Except Err α) : Interp.frames (M.lift r : M (Interp β) α) :=
  fun _ => ⟨rfl, rfl⟩

theorem frames_read {β : Type} : Interp.frames (Interp.read : M (Interp β) Visitor) :=
  fun _ => ⟨rfl, rfl⟩

theorem frames_call {β α : Type} (op : Visitor → β → Except Err α × β) :
    Interp.frames (Interp.call op) :=
  fun _ => ⟨rfl, rfl⟩

theorem frames_update {β : Type} (f : Visitor → Visitor)
    (hf : ∀ v, (f v).bitmap = v.bitmap ∧ (f v).current_subset = v.current_subset) :
    Interp.frames (Interp.update f : M (Interp β) Unit) :=
  fun s => hf s.vis

theorem frames_bind {β α γ : Type} {x : M (Interp β) α} {f : α → M (Interp β) γ}
    (hx : Interp.frames x) (hf : ∀ a, Interp.frames (f a)) : Interp.frames (x >>= f) := by
  intro s
  rw [M.bind_apply]
  have h1 := hx s
  rcases hxs : x s with ⟨r, s1⟩
  rw [hxs] at h1
  cases r with
  | error e => exact h1
  | ok a =>
    have h2 := hf a s1
    exact ⟨h2.1.trans h1.1, h2.2.trans h1.2⟩

theorem frames_ite {β α : Type} (c : Prop) [Decidable c] {x y : M (Interp β) α}
    (hx : Interp.frames x) (hy : Interp.frames y) : Interp.frames (if c then x else y) := by
  split
  · exact hx
  · exact hy

theorem keeps_of_frames {β α : Type} {x : M (Interp β) α} (h : Interp.frames x) :
    Interp.keeps Visitor.tracker_ok x := by
  intro s a t hs hx
  have hf := h s
  rw [hx] at hf
  simp only [] at hf
  unfold Visitor.tracker_ok at hs ⊢
  rw [hf.1, hf.2]
  exact hs

theorem keeps_bind {β α γ : Type} {P : Visitor → Prop} {x : M (Interp β) α}
    {f : α → M (Interp β) γ}
    (hx : Interp.keeps P x) (hf : ∀ a, Interp.keeps P (f a)) : Interp.keeps P (x >>= f) := by
  intro s b t hs h
  obtain ⟨a, s1, h1, h2⟩ := M.bind_ok h
  exact hf a s1 b t (hx s a s1 hs h1) h2

theorem keeps_ite {β α : Type} {P : Visitor → Prop} (c : Prop) [Decidable c]
    {x y : M (Interp β) α}
    (hx : Interp.keeps P x) (hy : Interp.keeps P y) : Interp.keeps P (if c then x else y) := by
  split
  · exact hx
  · exact hy

theorem frames_c_associated_field {β Ops : Type} (d : Delegate β Ops)
    (code sig_code : Varcode) (nbits : Nat) :
    Interp.frames (Visitor.c_associated_field d code sig_code nbits) := by
  unfold Visitor.c_associated_field
  repeat' first
    | exact frames_pure _
    | exact frames_raise _
    | exact frames_lift _
    | exact frames_read
    | exact frames_call _
    | exact frames_update _ (fun _ => ⟨rfl, rfl⟩)
    | apply frames_bind
    | apply frames_ite
    | intro _

theorem frames_c_local_descriptor {β Ops : Type} (d : Delegate β Ops)
    (code desc_code : Varcode) (nbits : Nat) :
    Interp.frames (Visitor.c_local_descriptor d code desc_code nbits) := by
  unfold Visitor.c_local_descriptor
  repeat' first
    | exact frames_pure _
    | exact frames_raise _
    | exact frames_lift _
    | exact frames_read
    | exact frames_call _
    | exact frames_update _ (fun _ => ⟨rfl, rfl⟩)
    | apply frames_bind
    | apply frames_ite
    | intro _

theorem frames_b_variable_tail {β Ops : Type} (d : Delegate β Ops) (self : Visitor)
    (info : Varinfo) :
    Interp.frames (do
      if self.c04_bits > 0 then
        Interp.call (d.do_associated_field self.c04_bits self.c04_meaning)
      Interp.call (d.do_var info)
      Interp.update fun v => { v with data_pos := v.data_pos + 1 } : M (Interp β) Unit) := by
  repeat' first
    | exact frames_pure _
    | exact frames_call _
    | exact frames_update _ (fun _ => ⟨rfl, rfl⟩)
    | apply frames_bind
    | apply frames_ite
    | intro _

theorem frames_c_quality_information_bitmap {β : Type} (code : Varcode) :
    Interp.frames (Visitor.c_quality_information_bitmap code : M (Interp β) Unit) := by
  unfold Visitor.c_quality_information_bitmap
  repeat' first
    | exact frames_pure _
    | exact frames_raise _
    | exact frames_lift _
    | exact frames_read
    | exact frames_call _
    | exact frames_update _ (fun _ => ⟨rfl, rfl⟩)
    | apply frames_bind
    | apply frames_ite

/-- A normal return of `Bitmap::next`. -/
theorem next_ok {b t : Bitmap} {r : Nat} (h : b.next = (.ok r, t)) :
    ∃ k, b.iter = k + 1 ∧ b.refs[k]? = some r ∧ t = { b with iter := k } := by
  unfold Bitmap.next at h
  cases hk : b.iter with
  | zero => simp [hk] at h
  | succ k =>
    cases hr : b.refs[k]? with
    | none => simp [hk, hr] at h
    | some res =>
      simp only [hk, hr, Prod.mk.injEq, Except.ok.injEq] at h
      exact ⟨k, rfl, by rw [hr, h.1], h.2.symm⟩

/-- With the iterator inside the queue and not at its end, `Bitmap::next` returns
the reference under the iterator. -/
theorem next_of_not_eob {b : Bitmap} (hle : b.iter ≤ b.refs.length) (h : b.eob = false) :
    ∃ k, ∃ hk : k < b.refs.length, b.iter = k + 1 ∧
      b.next = (.ok b.refs[k], { b with iter := k }) := by
  unfold Bitmap.eob at h
  cases hi : b.iter with
  | zero => simp [hi] at h
  | succ k =>
    have hk : k < b.refs.length := by omega
    refine ⟨k, hk, rfl, ?_⟩
    unfold Bitmap.next
    simp [hi, List.getElem?_eq_getElem hk]

theorem keeps_next {β : Type} :
    Interp.keeps Visitor.tracker_ok (Interp.on_bitmap Bitmap.next : M (Interp β) Nat) := by
  intro s r t hs h
  unfold Interp.on_bitmap at h
  simp only [Prod.mk.injEq] at h
  obtain ⟨h1, h2⟩ := h
  obtain ⟨k, hk, _, hb⟩ := next_ok (Prod.ext h1 rfl : s.vis.bitmap.next = (.ok r, s.vis.bitmap.next.2))
  subst h2
  obtain ⟨ha, hb2, hc⟩ := hs
  unfold Visitor.tracker_ok
  simp only [hb]
  refine ⟨by omega, ?_, hc⟩
  intro hnone
  have := hb2 hnone
  omega

theorem keeps_b_variable {β Ops : Type} (d : Delegate β Ops) (code : Varcode) :
    Interp.keeps Visitor.tracker_ok (Visitor.b_variable d code) := by
  unfold Visitor.b_variable
  apply keeps_bind (keeps_of_frames frames_read)
  intro self
  apply keeps_bind (keeps_of_frames (frames_lift _))
  intro info
  apply keeps_ite
  · apply keeps_bind keeps_next
    intro target
    exact keeps_of_frames (frames_call _)
  · exact keeps_of_frames (frames_b_variable_tail d self info)

theorem keeps_c_substituted_value {β Ops : Type} (d : Delegate β Ops) (code : Varcode) :
    Interp.keeps Visitor.tracker_ok (Visitor.c_substituted_value d code) := by
  unfold Visitor.c_substituted_value
  repeat' first
    | exact keeps_next
    | exact keeps_of_frames frames_read
    | exact keeps_of_frames (frames_pure _)
    | exact keeps_of_frames (frames_raise _)
    | exact keeps_of_frames (frames_lift _)
    | exact keeps_of_frames (frames_call _)
    | apply keeps_bind
    | apply keeps_ite
    | intro _

theorem keeps_r_replication_loop {β Ops : Type} (d : Delegate β Ops)
    (visit : Ops → M (Interp β) Unit) (ops : Ops)
    (hvisit : ∀ o, Interp.keeps Visitor.tracker_ok (visit o)) (left : Nat) :
    ∀ i, Interp.keeps Visitor.tracker_ok (Visitor.r_replication_loop d visit ops i left) := by
  induction left with
  | zero =>
    intro i
    unfold Visitor.r_replication_loop
    exact keeps_of_frames (frames_pure _)
  | succ n ih =>
    intro i
    unfold Visitor.r_replication_loop
    apply keeps_bind (keeps_of_frames (frames_call _))
    intro _
    apply keeps_bind (hvisit ops)
    intro _
    exact ih (i + 1)

/-- A successful `Bitmap::init` on the current subset leaves a tracker that
satisfies `tracker_ok`. -/
theorem tracker_ok_init {v : Visitor} {bitmap_var : Var} {anchor : Nat} {b1 : Bitmap}
    (h : v.bitmap.init bitmap_var v.current_subset anchor = (.ok (), b1)) :
    Visitor.tracker_ok { v with bitmap := b1 } := by
  obtain ⟨_, _, _, hb1⟩ := init_ok h
  subst hb1
  refine ⟨by simp, by simp, ?_⟩
  intro r hr
  simp only [List.mem_reverse] at hr
  unfold bitmap_targets at hr
  rw [List.mem_filterMap] at hr
  obtain ⟨i, _, hi⟩ := hr
  split at hi
  · obtain ⟨_, v1, hv1, _⟩ := mem_plain_below (List.getElem?_mem hi)
    exact (List.getElem?_eq_some.mp hv1).1
  · cases hi

theorem keeps_r_replication {β Ops : Type} (d : Delegate β Ops)
    (visit : Ops → M (Interp β) Unit) (code delayed_code : Varcode) (ops : Ops)
    (hvisit : ∀ o, Interp.keeps Visitor.tracker_ok (visit o)) :
    Interp.keeps Visitor.tracker_ok (Visitor.r_replication d visit code delayed_code ops) := by
  intro s a t hs h
  unfold Visitor.r_replication at h
  simp only [M.bind_apply, Interp.read] at h
  by_cases hw : s.vis.want_bitmap = true
  · simp only [hw, if_true] at h
    obtain ⟨bv, s1, h1, h2⟩ := M.bind_ok h
    obtain ⟨u, s2, h3, h4⟩ := M.bind_ok h2
    have hs1 : s1.vis = s.vis := by
      have := congrArg (fun p => p.2.vis) h1
      simpa [Interp.call] using this.symm
    unfold Interp.on_bitmap at h3
    simp only [Prod.mk.injEq] at h3
    rw [hs1] at h3
    have hinit : s.vis.bitmap.init bv s.vis.current_subset s.vis.data_pos =
        (.ok (), s2.vis.bitmap) := by
      refine Prod.ext h3.1 ?_
      rw [← h3.2]
    have hs2 : s2.vis = { s.vis with bitmap := s2.vis.bitmap } := by
      rw [← h3.2]
    have hok : Visitor.tracker_ok s2.vis := by
      rw [hs2]
      exact tracker_ok_init hinit
    refine keeps_of_frames ?_ s2 a t hok h4
    repeat' first
      | exact frames_pure _
      | exact frames_update _ (fun _ => ⟨rfl, rfl⟩)
      | apply frames_bind
      | apply frames_ite
  · simp only [hw, Bool.false_eq_true, if_false] at h
    refine (?_ : Interp.keeps Visitor.tracker_ok _) s a t hs h
    apply keeps_ite
    · apply keeps_bind (keeps_of_frames (frames_lift _))
      intro info
      apply keeps_bind (keeps_of_frames (frames_call _))
      intro var
      apply keeps_bind (keeps_of_frames (frames_lift _))
      intro n
      apply keeps_bind
      · exact keeps_of_frames (frames_update _ (fun _ => ⟨rfl, rfl⟩))
      intro _
      apply keeps_bind (keeps_of_frames (frames_pure _))
      intro y
      exact keeps_r_replication_loop d visit ops hvisit y 0
    · apply keeps_bind (keeps_of_frames (frames_pure _))
      intro y
      exact keeps_r_replication_loop d visit ops hvisit y 0

/-- Every traversal keeps `tracker_ok`. -/
theorem keeps_traversal {β Ops : Type} (d : Delegate β Ops) (x : M (Interp β) Unit)
    (hx : Traversal d x) : Interp.keeps Visitor.tracker_ok x := by
  induction hx with
  | done => exact keeps_of_frames (frames_pure _)
  | seq _ _ ihx ihy => exact keeps_bind ihx (fun _ => ihy)
  | b_variable code => exact keeps_b_variable d code
  | c_modifier code => exact keeps_of_frames (frames_pure _)
  | c_change_data_width code change =>
    exact keeps_of_frames (frames_update _ (fun _ => ⟨rfl, rfl⟩))
  | c_change_data_scale code change =>
    exact keeps_of_frames (frames_update _ (fun _ => ⟨rfl, rfl⟩))
  | c_associated_field code sig_code nbits =>
    exact keeps_of_frames (frames_c_associated_field d code sig_code nbits)
  | c_char_data code => exact keeps_of_frames (frames_call _)
  | c_local_descriptor code desc_code nbits =>
    exact keeps_of_frames (frames_c_local_descriptor d code desc_code nbits)
  | c_char_data_override code new_length =>
    exact keeps_of_frames (frames_update _ (fun _ => ⟨rfl, rfl⟩))
  | c_quality_information_bitmap code =>
    exact keeps_of_frames (frames_c_quality_information_bitmap code)
  | c_substituted_value_bitmap code =>
    exact keeps_of_frames (frames_update _ (fun _ => ⟨rfl, rfl⟩))
  | c_substituted_value code => exact keeps_c_substituted_value d code
  | r_replication visit code delayed_code ops _ ih =>
    exact keeps_r_replication d visit code delayed_code ops ih

/-! ## Dispatch of `b_variable` and `c_substituted_value` -/

/-- The first branch of `b_variable`, on every backend. -/
theorem b_variable_attr {β Ops : Type} (d : Delegate β Ops) (code : Varcode) (m : Varinfo)
    (s : Interp β) (k r : Nat)
    (hinfo : s.vis.get_varinfo code = .ok m)
    (hF : WR_VAR_F code = 0) (hX : WR_VAR_X code = 33)
    (hiter : s.vis.bitmap.iter = k + 1) (href : s.vis.bitmap.refs[k]? = some r) :
    Visitor.b_variable d code s =
      Interp.call (d.do_attr m r code)
        { s with vis := { s.vis with bitmap := { s.vis.bitmap with iter := k } } } := by
  have hnext : s.vis.bitmap.next = (.ok r, { s.vis.bitmap with iter := k }) := by
    unfold Bitmap.next
    simp [hiter, href]
  unfold Visitor.b_variable
  simp [M.bind_apply, Interp.read, M.lift, hinfo, hF, hX, Bitmap.eob, hiter, Interp.on_bitmap,
    hnext]

/-- The second branch of `b_variable`, on every backend. -/
theorem b_variable_value {β Ops : Type} (d : Delegate β Ops) (code : Varcode) (m : Varinfo)
    (s : Interp β)
    (hinfo : s.vis.get_varinfo code = .ok m)
    (hc : ¬ (WR_VAR_F code = 0 ∧ WR_VAR_X code = 33 ∧ s.vis.bitmap.eob = false)) :
    Visitor.b_variable d code s =
      (do
        if s.vis.c04_bits > 0 then
          Interp.call (d.do_associated_field s.vis.c04_bits s.vis.c04_meaning)
        Interp.call (d.do_var m)
        Interp.update fun v => { v with data_pos := v.data_pos + 1 } : M (Interp β) Unit) s := by
  unfold Visitor.b_variable
  simp only [M.bind_apply, Interp.read, M.lift, hinfo, hc, if_false]

/-- C11. `b_variable(code)`, with `m` the record that `get_varinfo(code)` returns,
in a state where the tracker satisfies `tracker_ok` (as it does from
`do_start_subset` on). If `code` has F = 0 and X = 33 and a bitmap is active and
not at its end, the call is exactly `do_attr(m, t, code)` with `t` the reference
under the iterator, which is consumed; on the recording backend this is the only
call recorded and `data_pos` is unchanged. In every other case the call is
`do_associated_field(c04_bits, c04_meaning)` exactly when `c04_bits > 0`, then
`do_var(m)`, then `++data_pos`; on the recording backend these are the only calls
recorded and the tracker is untouched. -/
theorem b_variable_dispatch (code : Varcode) (m : Varinfo) :
    (∀ (β Ops : Type) (d : Delegate β Ops) (s : Interp β),
      s.vis.get_varinfo code = .ok m → s.vis.tracker_ok →
      WR_VAR_F code = 0 → WR_VAR_X code = 33 →
      s.vis.bitmap.bitmap ≠ none → s.vis.bitmap.eob = false →
      ∃ k, ∃ hk : k < s.vis.bitmap.refs.length, s.vis.bitmap.iter = k + 1 ∧
        Visitor.b_variable d code s =
          Interp.call (d.do_attr m s.vis.bitmap.refs[k] code)
            { s with vis := { s.vis with bitmap := { s.vis.bitmap with iter := k } } }) ∧
    (∀ (Ops : Type) (answer : Varinfo → Var) (bitmap_var : Var) (t : Interp (List Event)),
      t.vis.get_varinfo code = .ok m → t.vis.tracker_ok →
      WR_VAR_F code = 0 → WR_VAR_X code = 33 →
      t.vis.bitmap.bitmap ≠ none → t.vis.bitmap.eob = false →
      ∃ k, ∃ hk : k < t.vis.bitmap.refs.length, t.vis.bitmap.iter = k + 1 ∧
        Visitor.b_variable (recorder answer bitmap_var : Delegate (List Event) Ops) code t =
          (.ok (),
            { vis := { t.vis with bitmap := { t.vis.bitmap with iter := k } }
              ext := t.ext ++ [.attr m t.vis.bitmap.refs[k] code] })) ∧
    (∀ (β Ops : Type) (d : Delegate β Ops) (s : Interp β),
      s.vis.get_varinfo code = .ok m → s.vis.tracker_ok →
      ¬ (WR_VAR_F code = 0 ∧ WR_VAR_X code = 33 ∧
          s.vis.bitmap.bitmap ≠ none ∧ s.vis.bitmap.eob = false) →
      Visitor.b_variable d code s =
        (do
          if s.vis.c04_bits > 0 then
            Interp.call (d.do_associated_field s.vis.c04_bits s.vis.c04_meaning)
          Interp.call (d.do_var m)
          Interp.update fun v => { v with data_pos := v.data_pos + 1 } :
            M (Interp β) Unit) s) ∧
    (∀ (Ops : Type) (answer : Varinfo → Var) (bitmap_var : Var) (t : Interp (List Event)),
      t.vis.get_varinfo code = .ok m → t.vis.tracker_ok →
      ¬ (WR_VAR_F code = 0 ∧ WR_VAR_X code = 33 ∧
          t.vis.bitmap.bitmap ≠ none ∧ t.vis.bitmap.eob = false) →
      Visitor.b_variable (recorder answer bitmap_var : Delegate (List Event) Ops) code t =
        (.ok (),
          { vis := { t.vis with data_pos := t.vis.data_pos + 1 }
            ext := t.ext ++
              (if t.vis.c04_bits > 0 then
                [.associated_field t.vis.c04_bits t.vis.c04_meaning] else []) ++
              [.var m] })) := by
  have hattr : ∀ (β Ops : Type) (d : Delegate β Ops) (s : Interp β),
      s.vis.get_varinfo code = .ok m → s.vis.tracker_ok →
      WR_VAR_F code = 0 → WR_VAR_X code = 33 → s.vis.bitmap.eob = false →
      ∃ k, ∃ hk : k < s.vis.bitmap.refs.length, s.vis.bitmap.iter = k + 1 ∧
        Visitor.b_variable d code s =
          Interp.call (d.do_attr m s.vis.bitmap.refs[k] code)
            { s with vis := { s.vis with bitmap := { s.vis.bitmap with iter := k } } } := by
    intro β Ops d s hinfo hok hF hX heob
    obtain ⟨k, hk, hiter, _⟩ := next_of_not_eob hok.1 heob
    exact ⟨k, hk, hiter,
      b_variable_attr d code m s k _ hinfo hF hX hiter (List.getElem?_eq_getElem hk)⟩
  have hcond : ∀ (v : Visitor), v.tracker_ok →
      ¬ (WR_VAR_F code = 0 ∧ WR_VAR_X code = 33 ∧ v.bitmap.bitmap ≠ none ∧ v.bitmap.eob = false) →
      ¬ (WR_VAR_F code = 0 ∧ WR_VAR_X code = 33 ∧ v.bitmap.eob = false) := by
    intro v hok hn ⟨hF, hX, heob⟩
    apply hn
    refine ⟨hF, hX, ?_, heob⟩
    intro hnone
    have := hok.2.1 hnone
    simp [Bitmap.eob, this] at heob
  refine ⟨?_, ?_, ?_, ?_⟩
  · intro β Ops d s hinfo hok hF hX _ heob
    exact hattr β Ops d s hinfo hok hF hX heob
  · intro Ops answer bitmap_var t hinfo hok hF hX _ heob
    obtain ⟨k, hk, hiter, heq⟩ := hattr (List Event) Ops (recorder answer bitmap_var) t hinfo hok
      hF hX heob
    exact ⟨k, hk, hiter, by rw [heq]; rfl⟩
  · intro β Ops d s hinfo hok hn
    exact b_variable_value d code m s hinfo (hcond s.vis hok hn)
  · intro Ops answer bitmap_var t hinfo hok hn
    rw [b_variable_value _ code m t hinfo (hcond t.vis hok hn)]
    by_cases h04 : t.vis.c04_bits > 0
    · simp [h04, M.bind_apply, Interp.call, recorder_do_associated_field, recorder_do_var,
        Interp.update]
    · simp [h04, M.bind_apply, M.pure_apply, Interp.call, recorder_do_var, Interp.update]

/-- A run of C11 on `ex_interp_bitmap`: B33007 is transferred as an attribute of
the next bitmap reference, B12001 as a value after its associated field. -/
theorem b_variable_dispatch_witness :
    (∃ k, ∃ hk : k < ex_interp_bitmap.vis.bitmap.refs.length,
      ex_interp_bitmap.vis.bitmap.iter = k + 1 ∧
      Visitor.b_variable (recorder ex_answer (ex_bitmap ['+']) : Delegate (List Event) Unit)
          (WR_VAR 0 33 7) ex_interp_bitmap =
        (.ok (),
          { vis := { ex_interp_bitmap.vis with
                     bitmap := { ex_interp_bitmap.vis.bitmap with iter := k } }
            ext := ex_interp_bitmap.ext ++
              [.attr (ex_info (WR_VAR 0 33 7)) ex_interp_bitmap.vis.bitmap.refs[k]
                (WR_VAR 0 33 7)] })) ∧
    Visitor.b_variable (recorder ex_answer (ex_bitmap ['+']) : Delegate (List Event) Unit)
        (WR_VAR 0 12 1) ex_interp_bitmap =
      (.ok (),
        { vis := { ex_interp_bitmap.vis with data_pos := ex_interp_bitmap.vis.data_pos + 1 }
          ext := ex_interp_bitmap.ext ++
            (if ex_interp_bitmap.vis.c04_bits > 0 then
              [.associated_field ex_interp_bitmap.vis.c04_bits ex_interp_bitmap.vis.c04_meaning]
              else []) ++
            [.var (ex_info (WR_VAR 0 12 1))] }) :=
  ⟨(b_variable_dispatch (WR_VAR 0 33 7) (ex_info (WR_VAR 0 33 7))).2.1 Unit ex_answer
      (ex_bitmap ['+']) ex_interp_bitmap rfl
      ⟨by decide, by decide, by decide⟩ (by decide) (by decide) (by decide) (by decide),
    (b_variable_dispatch (WR_VAR 0 12 1) (ex_info (WR_VAR 0 12 1))).2.2.2 Unit ex_answer
      (ex_bitmap ['+']) ex_interp_bitmap rfl
      ⟨by decide, by decide, by decide⟩ (by decide)⟩

/-- The normal path of `c_substituted_value`, on every backend. -/
theorem c_substituted_value_attr {β Ops : Type} (d : Delegate β Ops) (code : Varcode)
    (s : Interp β) (k target : Nat) (var : Var)
    (hb : s.vis.bitmap.bitmap ≠ none)
    (hiter : s.vis.bitmap.iter = k + 1)
    (href : s.vis.bitmap.refs[k]? = some target)
    (hvar : s.vis.current_subset[target]? = some var) :
    Visitor.c_substituted_value d code s =
      Interp.call (d.do_attr var.info target var.info.var)
        { s with vis := { s.vis with bitmap := { s.vis.bitmap with iter := k } } } := by
  have hnext : s.vis.bitmap.next = (.ok target, { s.vis.bitmap with iter := k }) := by
    unfold Bitmap.next
    simp [hiter, href]
  have hsome : s.vis.bitmap.bitmap.isNone = false := by
    cases hbb : s.vis.bitmap.bitmap with
    | none => exact absurd hbb hb
    | some _ => rfl
  unfold Visitor.c_substituted_value
  simp [M.bind_apply, M.pure_apply, Interp.read, hsome, hb, Bitmap.eob, hiter,
    Interp.on_bitmap, hnext, M.lift, hvar]

/-- The two guards of `c_substituted_value`, on every backend. -/
theorem c_substituted_value_guard {β Ops : Type} (d : Delegate β Ops) (code : Varcode)
    (s : Interp β) (h : s.vis.bitmap.bitmap = none ∨ s.vis.bitmap.eob = true) :
    Visitor.c_substituted_value d code s = (.error (.consistency []), s) := by
  unfold Visitor.c_substituted_value
  by_cases hb : s.vis.bitmap.bitmap = none
  · simp [M.bind_apply, Interp.read, hb, M.raise]
  · have he : s.vis.bitmap.eob = true := by
      rcases h with h | h
      · exact absurd h hb
      · exact h
    have hsome : s.vis.bitmap.bitmap.isNone = false := by
      cases hbb : s.vis.bitmap.bitmap with
      | none => exact absurd hbb hb
      | some _ => rfl
    simp [M.bind_apply, M.pure_apply, Interp.read, hsome, hb, he, M.raise]

/-- Under `tracker_ok`, a tracker not at its end has a next reference, and that
reference is a position of the current subset. -/
theorem tracker_ok_target {v : Visitor} (hok : v.tracker_ok) (heob : v.bitmap.eob = false) :
    ∃ k, ∃ hk : k < v.bitmap.refs.length, ∃ var, v.bitmap.iter = k + 1 ∧
      v.current_subset[v.bitmap.refs[k]]? = some var := by
  obtain ⟨k, hk, hiter, _⟩ := next_of_not_eob hok.1 heob
  have hlt : v.bitmap.refs[k] < v.current_subset.length :=
    hok.2.2 _ (List.getElem_mem hk)
  exact ⟨k, hk, v.current_subset[v.bitmap.refs[k]], hiter, List.getElem?_eq_getElem hlt⟩

/-- C12. `c_substituted_value(code)`. On every backend it throws
`error_consistency`, leaving the object as it was, when no bitmap is active or the
active bitmap is at its end (an active bitmap without a `+` is at its end from the
start). Otherwise, in the states the interpreter reaches (`tracker_ok`), it
consumes the reference `t` under the iterator, takes the value stored at position
`t` of the current subset and is exactly `do_attr(info, t, info->var)` for the
metadata `info` of that value; nothing but the iterator of the tracker changes in
the `Visitor` members. On the recording backend, which never fails itself, the call
throws `error_consistency` if and only if no bitmap is active or the bitmap is at
its end, and otherwise records exactly that one `do_attr`. -/
theorem c_substituted_value_spec (code : Varcode) :
    (∀ (β Ops : Type) (d : Delegate β Ops) (s : Interp β),
      s.vis.bitmap.bitmap = none ∨ s.vis.bitmap.eob = true →
      Visitor.c_substituted_value d code s = (.error (.consistency []), s)) ∧
    (∀ (β Ops : Type) (d : Delegate β Ops) (s : Interp β),
      s.vis.tracker_ok → s.vis.bitmap.bitmap ≠ none → s.vis.bitmap.eob = false →
      ∃ k, ∃ hk : k < s.vis.bitmap.refs.length, ∃ var,
        s.vis.bitmap.iter = k + 1 ∧
        s.vis.current_subset[s.vis.bitmap.refs[k]]? = some var ∧
        Visitor.c_substituted_value d code s =
          Interp.call (d.do_attr var.info s.vis.bitmap.refs[k] var.info.var)
            { s with vis := { s.vis with bitmap := { s.vis.bitmap with iter := k } } }) ∧
    (∀ (Ops : Type) (answer : Varinfo → Var) (bitmap_var : Var) (t : Interp (List Event)),
      t.vis.tracker_ok →
      ((∃ args, (Visitor.c_substituted_value
          (recorder answer bitmap_var : Delegate (List Event) Ops) code t).1 =
            .error (.consistency args)) ↔
        (t.vis.bitmap.bitmap = none ∨ t.vis.bitmap.eob = true)) ∧
      (t.vis.bitmap.bitmap ≠ none → t.vis.bitmap.eob = false →
        ∃ k, ∃ hk : k < t.vis.bitmap.refs.length, ∃ var,
          t.vis.bitmap.iter = k + 1 ∧
          t.vis.current_subset[t.vis.bitmap.refs[k]]? = some var ∧
          Visitor.c_substituted_value
              (recorder answer bitmap_var : Delegate (List Event) Ops) code t =
            (.ok (),
              { vis := { t.vis with bitmap := { t.vis.bitmap with iter := k } }
                ext := t.ext ++ [.attr var.info t.vis.bitmap.refs[k] var.info.var] }))) := by
  have hgen : ∀ (β Ops : Type) (d : Delegate β Ops) (s : Interp β),
      s.vis.tracker_ok → s.vis.bitmap.bitmap ≠ none → s.vis.bitmap.eob = false →
      ∃ k, ∃ hk : k < s.vis.bitmap.refs.length, ∃ var,
        s.vis.bitmap.iter = k + 1 ∧
        s.vis.current_subset[s.vis.bitmap.refs[k]]? = some var ∧
        Visitor.c_substituted_value d code s =
          Interp.call (d.do_attr var.info s.vis.bitmap.refs[k] var.info.var)
            { s with vis := { s.vis with bitmap := { s.vis.bitmap with iter := k } } } := by
    intro β Ops d s hok hb heob
    obtain ⟨k, hk, var, hiter, hvar⟩ := tracker_ok_target hok heob
    exact ⟨k, hk, var, hiter, hvar,
      c_substituted_value_attr d code s k _ var hb hiter (List.getElem?_eq_getElem hk) hvar⟩
  refine ⟨?_, hgen, ?_⟩
  · intro β Ops d s h
    exact c_substituted_value_guard d code s h
  · intro Ops answer bitmap_var t hok
    have hrec : t.vis.bitmap.bitmap ≠ none → t.vis.bitmap.eob = false →
        ∃ k, ∃ hk : k < t.vis.bitmap.refs.length, ∃ var,
          t.vis.bitmap.iter = k + 1 ∧
          t.vis.current_subset[t.vis.bitmap.refs[k]]? = some var ∧
          Visitor.c_substituted_value
              (recorder answer bitmap_var : Delegate (List Event) Ops) code t =
            (.ok (),
              { vis := { t.vis with bitmap := { t.vis.bitmap with iter := k } }
                ext := t.ext ++ [.attr var.info t.vis.bitmap.refs[k] var.info.var] }) := by
      intro hb heob
      obtain ⟨k, hk, var, hiter, hvar, heq⟩ :=
        hgen (List Event) Ops (recorder answer bitmap_var) t hok hb heob
      exact ⟨k, hk, var, hiter, hvar, by rw [heq]; rfl⟩
    refine ⟨⟨?_, ?_⟩, hrec⟩
    · rintro ⟨args, hfail⟩
      by_contra hn
      have hb : t.vis.bitmap.bitmap ≠ none := fun h => hn (Or.inl h)
      have heob : t.vis.bitmap.eob = false := by
        cases he : t.vis.bitmap.eob with
        | false => rfl
        | true => exact absurd (Or.inr he) hn
      obtain ⟨k, hk, var, _, _, heq⟩ := hrec hb heob
      rw [heq] at hfail
      cases hfail
    · intro h
      exact ⟨[], by rw [c_substituted_value_guard _ code t h]⟩

/-- A run of C12 on `ex_interp_bitmap` (a reference is consumed) and on
`ex_interp` (no bitmap is active). -/
theorem c_substituted_value_spec_witness :
    (∃ k, ∃ hk : k < ex_interp_bitmap.vis.bitmap.refs.length, ∃ var,
      ex_interp_bitmap.vis.bitmap.iter = k + 1 ∧
      ex_interp_bitmap.vis.current_subset[ex_interp_bitmap.vis.bitmap.refs[k]]? = some var ∧
      Visitor.c_substituted_value
          (recorder ex_answer (ex_bitmap ['+']) : Delegate (List Event) Unit) (WR_VAR 2 23 255)
          ex_interp_bitmap =
        (.ok (),
          { vis := { ex_interp_bitmap.vis with
                     bitmap := { ex_interp_bitmap.vis.bitmap with iter := k } }
            ext := ex_interp_bitmap.ext ++
              [.attr var.info ex_interp_bitmap.vis.bitmap.refs[k] var.info.var] })) ∧
    Visitor.c_substituted_value
        (recorder ex_answer (ex_bitmap ['+']) : Delegate (List Event) Unit) (WR_VAR 2 23 255)
        ex_interp = (.error (.consistency []), ex_interp) :=
  ⟨((c_substituted_value_spec (WR_VAR 2 23 255)).2.2 Unit ex_answer (ex_bitmap ['+'])
      ex_interp_bitmap ⟨by decide, by decide, by decide⟩).2 (by decide) (by decide),
    (c_substituted_value_spec (WR_VAR 2 23 255)).1 _ _ _ ex_interp (Or.inl rfl)⟩

/-! ## `r_replication` with a bitmap request pending -/

/-- C13, as stated, fails. With a bitmap request pending, the fixed count
replication `R 01 003` called with the non-zero count descriptor B31001 returns
normally and advances `data_pos` from 2 to 3, although the item field of `code`
is not 0. -/
theorem r_replication_bitmap_counterexample :
    WR_VAR_Y (WR_VAR 1 1 3) ≠ 0 ∧
    ex_interp_want.vis.data_pos = 2 ∧
    (Visitor.r_replication (recorder ex_answer (ex_bitmap ['+'])) recorded_group
      (WR_VAR 1 1 3) (WR_VAR 0 31 1) () ex_interp_want).1 = .ok () ∧
    (Visitor.r_replication (recorder ex_answer (ex_bitmap ['+'])) recorded_group
      (WR_VAR 1 1 3) (WR_VAR 0 31 1) () ex_interp_want).2.vis.data_pos = 3 := by
  decide

/-- C13, amended. With a bitmap request pending, `r_replication(code,
delayed_code, ops)` is, on every backend and for every group: one `do_bitmap`
(with B31012 in place of `delayed_code` when the count is delayed and none is
given), `Bitmap::init` of the value returned on the current subset with the anchor
`data_pos`, `++data_pos` when that count descriptor is not 0, and the request
disarmed; the group is not visited and no repetition is started. On the recording
backend, when `init` returns normally, exactly one `do_bitmap` is recorded. The
count descriptor tested is never 0 when the item field of `code` is 0, and it is
the argument `delayed_code` when the item field is not 0: `data_pos` advances
always for a delayed count, and for a fixed count exactly when a non-zero
`delayed_code` is passed. -/
theorem r_replication_bitmap_mode (code delayed_code : Varcode) :
    (∀ (β Ops : Type) (d : Delegate β Ops) (visit : Ops → M (Interp β) Unit) (ops : Ops)
        (s : Interp β), s.vis.want_bitmap = true →
      Visitor.r_replication d visit code delayed_code ops s =
        (do
          let bitmap_var ← Interp.call (d.do_bitmap code
            (if WR_VAR_Y code = 0 ∧ delayed_code = 0 then WR_VAR 0 31 12 else delayed_code) ops)
          Interp.on_bitmap fun b => b.init bitmap_var s.vis.current_subset s.vis.data_pos
          if (if WR_VAR_Y code = 0 ∧ delayed_code = 0 then WR_VAR 0 31 12 else delayed_code) ≠ 0
          then
            Interp.update fun v => { v with data_pos := v.data_pos + 1 }
          Interp.update fun v => { v with want_bitmap := false } : M (Interp β) Unit) s) ∧
    (∀ (Ops : Type) (answer : Varinfo → Var) (bitmap_var : Var)
        (visit : Ops → M (Interp (List Event)) Unit) (ops : Ops) (t : Interp (List Event))
        (tracker : Bitmap), t.vis.want_bitmap = true →
      t.vis.bitmap.init bitmap_var t.vis.current_subset t.vis.data_pos = (.ok (), tracker) →
      Visitor.r_replication (recorder answer bitmap_var) visit code delayed_code ops t =
        (.ok (),
          { vis := { t.vis with
                     bitmap := tracker
                     data_pos :=
                       if (if WR_VAR_Y code = 0 ∧ delayed_code = 0 then WR_VAR 0 31 12
                           else delayed_code) ≠ 0
                       then t.vis.data_pos + 1 else t.vis.data_pos
                     want_bitmap := false }
            ext := t.ext ++ [.bitmap code
              (if WR_VAR_Y code = 0 ∧ delayed_code = 0 then WR_VAR 0 31 12
               else delayed_code)] })) ∧
    (WR_VAR_Y code = 0 →
      (if WR_VAR_Y code = 0 ∧ delayed_code = 0 then WR_VAR 0 31 12 else delayed_code) ≠ 0) ∧
    (WR_VAR_Y code ≠ 0 →
      (if WR_VAR_Y code = 0 ∧ delayed_code = 0 then WR_VAR 0 31 12 else delayed_code) =
        delayed_code) := by
  refine ⟨?_, ?_, ?_, ?_⟩
  · intro β Ops d visit ops s hw
    unfold Visitor.r_replication
    simp only [M.bind_apply, Interp.read, hw, if_true]
  · intro Ops answer bitmap_var visit ops t tracker hw hinit
    exact r_replication_bitmap_recorded answer bitmap_var visit code delayed_code ops t tracker
      hw hinit
  · intro hY
    by_cases hd : delayed_code = 0
    · simp only [hY, hd, and_self, if_true]
      decide
    · simp [hd]
  · intro hY
    simp [hY]

/-- A run of C13 as amended: the delayed replication `R 01 000` with no count
descriptor given, on `ex_interp_want`. -/
theorem r_replication_bitmap_mode_witness :
    Visitor.r_replication (recorder ex_answer (ex_bitmap ['+'])) recorded_group
        (WR_VAR 1 1 0) 0 () ex_interp_want =
      (.ok (),
        { vis := { ex_interp_want.vis with
                   bitmap := (ex_interp_want.vis.bitmap.init (ex_bitmap ['+'])
                     ex_interp_want.vis.current_subset ex_interp_want.vis.data_pos).2
                   data_pos :=
                     if (if WR_VAR_Y (WR_VAR 1 1 0) = 0 ∧ (0 : Varcode) = 0 then WR_VAR 0 31 12
                         else 0) ≠ 0
                     then ex_interp_want.vis.data_pos + 1 else ex_interp_want.vis.data_pos
                   want_bitmap := false }
          ext := ex_interp_want.ext ++ [.bitmap (WR_VAR 1 1 0)
            (if WR_VAR_Y (WR_VAR 1 1 0) = 0 ∧ (0 : Varcode) = 0 then WR_VAR 0 31 12
             else 0)] }) :=
  (r_replication_bitmap_mode (WR_VAR 1 1 0) 0).2.1 Unit ex_answer (ex_bitmap ['+'])
    recorded_group () ex_interp_want _ rfl rfl

/-! ## `c_local_descriptor` -/

/-- C14, as stated, fails: `c_local_descriptor` does not look at its argument
`nbits`. For the operator `C 06 000` it returns normally with `nbits = 40 > 32`,
recording nothing; for `C 06 008` called with `nbits = 0` it records one `do_var`
and advances `data_pos` from 3 to 4. -/
theorem c_local_descriptor_nbits_counterexample :
    (32 < 40 ∧
      (Visitor.c_local_descriptor (recorder ex_answer (ex_bitmap ['+']) : Delegate _ Unit)
        (WR_VAR 2 6 0) (WR_VAR 0 1 1) 40 ex_interp).1 = .ok () ∧
      (Visitor.c_local_descriptor (recorder ex_answer (ex_bitmap ['+']) : Delegate _ Unit)
        (WR_VAR 2 6 0) (WR_VAR 0 1 1) 40 ex_interp).2.ext = []) ∧
    ((Visitor.c_local_descriptor (recorder ex_answer (ex_bitmap ['+']) : Delegate _ Unit)
        (WR_VAR 2 6 8) (WR_VAR 3 1 1) 0 ex_interp).2.ext =
      [.var (local_descriptor_info (WR_VAR 2 6 8))] ∧
     ex_interp.vis.data_pos = 3 ∧
     (Visitor.c_local_descriptor (recorder ex_answer (ex_bitmap ['+']) : Delegate _ Unit)
        (WR_VAR 2 6 8) (WR_VAR 3 1 1) 0 ex_interp).2.vis.data_pos = 4) := by
  decide

/-- C14, amended. `c_local_descriptor(code, desc_code, nbits)` acts on the item
field `Y = WR_VAR_Y(code)`, for every `nbits`. If `Y > 32` it throws
`error_unimplemented` and the object is as before. If `Y = 0` it returns normally
and the object is as before. If `1 ≤ Y ≤ 32`, on the recording backend, it records
exactly one `do_var` and advances `data_pos` by one: the record transferred is
`get_varinfo(desc_code)` when the table contains `desc_code` and the bit width of
that record is `Y`, and otherwise (the table does not contain `desc_code`, or the
width differs) the fabricated record, which is string-typed with scale 0 and bit
width `Y`. -/
theorem c_local_descriptor_spec (code desc_code : Varcode) (nbits : Nat) :
    (∀ (β Ops : Type) (d : Delegate β Ops) (s : Interp β), 32 < WR_VAR_Y code →
      Visitor.c_local_descriptor d code desc_code nbits s =
        (.error (.unimplemented [WR_VAR_Y code]), s)) ∧
    (∀ (β Ops : Type) (d : Delegate β Ops) (s : Interp β), WR_VAR_Y code = 0 →
      Visitor.c_local_descriptor d code desc_code nbits s = (.ok (), s)) ∧
    (∀ (Ops : Type) (answer : Varinfo → Var) (bitmap_var : Var) (t : Interp (List Event))
        (info : Varinfo),
      1 ≤ WR_VAR_Y code → WR_VAR_Y code ≤ 32 →
      t.vis.btable.contains desc_code = true →
      t.vis.get_varinfo desc_code = .ok info → info.bit_len = WR_VAR_Y code →
      Visitor.c_local_descriptor (recorder answer bitmap_var : Delegate (List Event) Ops)
          code desc_code nbits t =
        (.ok (), { vis := { t.vis with data_pos := t.vis.data_pos + 1 }
                   ext := t.ext ++ [.var info] })) ∧
    (∀ (Ops : Type) (answer : Varinfo → Var) (bitmap_var : Var) (t : Interp (List Event)),
      1 ≤ WR_VAR_Y code → WR_VAR_Y code ≤ 32 →
      (t.vis.btable.contains desc_code = false ∨
        ∃ info, t.vis.get_varinfo desc_code = .ok info ∧ info.bit_len ≠ WR_VAR_Y code) →
      Visitor.c_local_descriptor (recorder answer bitmap_var : Delegate (List Event) Ops)
          code desc_code nbits t =
        (.ok (), { vis := { t.vis with data_pos := t.vis.data_pos + 1 }
                   ext := t.ext ++ [.var (local_descriptor_info code)] })) ∧
    ((local_descriptor_info code).is_string = true ∧
      (local_descriptor_info code).scale = 0 ∧
      (local_descriptor_info code).bit_len = WR_VAR_Y code) := by
  refine ⟨?_, ?_, ?_, ?_, ⟨rfl, rfl, rfl⟩⟩
  · intro β Ops d s h
    unfold Visitor.c_local_descriptor
    simp [M.bind_apply, Interp.read, M.raise, h]
  · intro β Ops d s h
    unfold Visitor.c_local_descriptor
    simp [M.bind_apply, M.pure_apply, Interp.read, h]
  · intro Ops answer bitmap_var t info h1 h2 hc hinfo hlen
    have hY : WR_VAR_Y code ≠ 0 := by omega
    have h32 : ¬ (32 < WR_VAR_Y code) := by omega
    unfold Visitor.c_local_descriptor
    simp [M.bind_apply, M.pure_apply, Interp.read, M.lift, hY, h32, hc, hinfo, hlen,
      Interp.call, recorder_do_var, Interp.update]
  · intro Ops answer bitmap_var t h1 h2 hskip
    have hY : WR_VAR_Y code ≠ 0 := by omega
    have h32 : ¬ (32 < WR_VAR_Y code) := by omega
    unfold Visitor.c_local_descriptor
    rcases hskip with hc | ⟨info, hinfo, hlen⟩
    · simp [M.bind_apply, M.pure_apply, Interp.read, hY, h32, hc, Interp.call,
        recorder_do_var, Interp.update, local_descriptor_info]
    · by_cases hc : t.vis.btable.contains desc_code = true
      · simp [M.bind_apply, M.pure_apply, Interp.read, M.lift, hY, h32, hc, hinfo, hlen,
          Interp.call, recorder_do_var, Interp.update, local_descriptor_info]
      · simp [M.bind_apply, M.pure_apply, Interp.read, hY, h32, hc, Interp.call,
          recorder_do_var, Interp.update, local_descriptor_info]

/-- A run of C14 as amended: the operator `C 06 005` before B12001, whose record
has 5 bits under the width change of `ex_interp`, and before an unknown
descriptor. -/
theorem c_local_descriptor_spec_witness :
    Visitor.c_local_descriptor (recorder ex_answer (ex_bitmap ['+']) : Delegate _ Unit)
        (WR_VAR 2 6 5) (WR_VAR 0 12 1) 5 ex_interp =
      (.ok (), { vis := { ex_interp.vis with data_pos := ex_interp.vis.data_pos + 1 }
                 ext := ex_interp.ext ++
                   [.var { ex_info (WR_VAR 0 12 1) with scale := 2, bit_len := 5 }] }) ∧
    Visitor.c_local_descriptor (recorder ex_answer (ex_bitmap ['+']) : Delegate _ Unit)
        (WR_VAR 2 6 5) (WR_VAR 3 1 1) 5 ex_interp =
      (.ok (), { vis := { ex_interp.vis with data_pos := ex_interp.vis.data_pos + 1 }
                 ext := ex_interp.ext ++ [.var (local_descriptor_info (WR_VAR 2 6 5))] }) :=
  ⟨(c_local_descriptor_spec (WR_VAR 2 6 5) (WR_VAR 0 12 1) 5).2.2.1 Unit ex_answer
      (ex_bitmap ['+']) ex_interp _ (by decide) (by decide) rfl rfl rfl,
    (c_local_descriptor_spec (WR_VAR 2 6 5) (WR_VAR 3 1 1) 5).2.2.2.1 Unit ex_answer
      (ex_bitmap ['+']) ex_interp (by decide) (by decide) (Or.inl rfl)⟩

/-! ## The two bindings compared -/

/-- C15, as stated, fails. On `ex_bulletin`, whose subset 1 holds one value,
`do_start_subset(1, ex_subset)` followed by `get_var(3)` throws on the mutable
binding, which reads subset 1 of the bulletin, and returns the value at position 3
of the argument `ex_subset` on the read-only binding. -/
theorem bindings_differ_counterexample :
    BaseVisitor.perform_all [.do_start_subset 1 ex_subset, .get_var_pos 3] ex_base =
      [.ok none, .error (.consistency [3, 1, 1])] ∧
    ConstBaseVisitor.perform_all [.do_start_subset 1 ex_subset, .get_var_pos 3] ex_const =
      [.ok none, .ok (some (ex_var (WR_VAR 0 12 1)))] := by
  decide

/-- `do_start_subset` with the bulletin's own subset: both bindings return
normally and end with the same members, bound to that subset. -/
theorem perform_start_same (b : Interp BaseVisitor) (c : Interp ConstBaseVisitor)
    (idx : Nat) (sub : Subset)
    (hv : b.vis = c.vis) (hb : b.ext.bulletin = c.ext.bulletin)
    (hsub : b.ext.bulletin.subsets[idx]? = some sub) :
    (BaseVisitor.perform (.do_start_subset idx sub) b).1 = .ok none ∧
    (ConstBaseVisitor.perform (.do_start_subset idx sub) c).1 = .ok none ∧
    same_binding (BaseVisitor.perform (.do_start_subset idx sub) b).2
      (ConstBaseVisitor.perform (.do_start_subset idx sub) c).2 ∧
    (BaseVisitor.perform (.do_start_subset idx sub) b).2.vis.current_subset = sub ∧
    (BaseVisitor.perform (.do_start_subset idx sub) b).2.ext.bulletin = b.ext.bulletin := by
  obtain ⟨hidx, hget⟩ := List.getElem?_eq_some.mp hsub
  have hidx2 : idx < c.ext.bulletin.subsets.length := by rw [← hb]; exact hidx
  simp only [BaseVisitor.perform, ConstBaseVisitor.perform, base_do_start_subset_eq,
    const_do_start_subset_eq, hidx, hidx2, dif_pos, if_true]
  have hsub2 : c.ext.bulletin.subsets[idx]? = some sub := by rw [← hb]; exact hsub
  obtain ⟨_, hget2⟩ := List.getElem?_eq_some.mp hsub2
  simp [same_binding, hget, hget2, hv, hb, Visitor.do_start_subset, hsub, hsub2, Except.map]

/-- One call on two bindings that hold the same members, bound to the bulletin:
same outcome, and the same members afterwards. -/
theorem perform_same (call : BindingCall) (b : Interp BaseVisitor) (c : Interp ConstBaseVisitor)
    (h : same_binding b c)
    (hcall : ∀ idx sub, call = .do_start_subset idx sub →
      b.ext.bulletin.subsets[idx]? = some sub) :
    (BaseVisitor.perform call b).1 = (ConstBaseVisitor.perform call c).1 ∧
    same_binding (BaseVisitor.perform call b).2 (ConstBaseVisitor.perform call c).2 ∧
    (BaseVisitor.perform call b).2.ext.bulletin = b.ext.bulletin := by
  cases call with
  | do_start_subset idx sub =>
    obtain ⟨h1, h2, h3, _, h5⟩ := perform_start_same b c idx sub h.1 h.2.1 (hcall idx sub rfl)
    exact ⟨h1.trans h2.symm, h3, h5⟩
  | get_var_pos p =>
    obtain ⟨bv, bb, bn, bc⟩ := b
    obtain ⟨cv, cb, cn, cc⟩ := c
    obtain ⟨h1, h2, h3, h4, h5⟩ := h
    simp only at h1 h2 h3 h4 h5
    subst h1 h2 h3 h4
    refine ⟨?_, ⟨rfl, rfl, rfl, rfl, h5⟩, rfl⟩
    simp only [BaseVisitor.perform, ConstBaseVisitor.perform, BaseVisitor.get_var_pos,
      ConstBaseVisitor.get_var_pos, h5]
  | get_var =>
    obtain ⟨bv, bb, bn, bc⟩ := b
    obtain ⟨cv, cb, cn, cc⟩ := c
    obtain ⟨h1, h2, h3, h4, h5⟩ := h
    simp only at h1 h2 h3 h4 h5
    subst h1 h2 h3 h4
    simp only [BaseVisitor.perform, ConstBaseVisitor.perform, BaseVisitor.get_var,
      ConstBaseVisitor.get_var, BaseVisitor.get_var_pos, ConstBaseVisitor.get_var_pos, h5]
    by_cases hp : bc ≥ bv.current_subset.length
    · simp only [hp, if_true]
      simp [same_binding, h5]
    · simp only [hp, if_false]
      have hlt : bc < bv.current_subset.length := by omega
      simp only [List.getElem?_eq_getElem hlt]
      simp [same_binding, h5]
  | do_bitmap code delayed_code =>
    obtain ⟨bv, bb, bn, bc⟩ := b
    obtain ⟨cv, cb, cn, cc⟩ := c
    obtain ⟨h1, h2, h3, h4, h5⟩ := h
    simp only at h1 h2 h3 h4 h5
    subst h1 h2 h3 h4
    simp only [BaseVisitor.perform, ConstBaseVisitor.perform, BaseVisitor.do_bitmap,
      ConstBaseVisitor.do_bitmap, BaseVisitor.get_var,
      ConstBaseVisitor.get_var, BaseVisitor.get_var_pos, ConstBaseVisitor.get_var_pos, h5]
    by_cases hp : bc ≥ bv.current_subset.length
    · simp only [hp, if_true]
      simp [same_binding, h5]
    · simp only [hp, if_false]
      have hlt : bc < bv.current_subset.length := by omega
      simp only [List.getElem?_eq_getElem hlt]
      by_cases hF : WR_VAR_F bv.current_subset[bc].code = 2
      · simp only [hF, ne_eq, not_true_eq_false, if_false]
        simp [same_binding, h5]
      · simp only [hF, ne_eq, not_false_eq_true, if_true]
        simp [same_binding, h5]

theorem perform_all_same (calls : List BindingCall) :
    ∀ (b : Interp BaseVisitor) (c : Interp ConstBaseVisitor), same_binding b c →
    (∀ idx sub, BindingCall.do_start_subset idx sub ∈ calls →
      b.ext.bulletin.subsets[idx]? = some sub) →
    BaseVisitor.perform_all calls b = ConstBaseVisitor.perform_all calls c := by
  induction calls with
  | nil => intro b c _ _; rfl
  | cons call cs ih =>
    intro b c h hcalls
    obtain ⟨h1, h2, h3⟩ := perform_same call b c h
      (fun idx sub heq => hcalls idx sub (by rw [heq]; exact List.mem_cons_self _ _))
    unfold BaseVisitor.perform_all ConstBaseVisitor.perform_all
    rw [h1, ih _ _ h2 (fun idx sub hmem => by
      rw [h3]; exact hcalls idx sub (List.mem_cons_of_mem _ hmem))]

/-- C15, amended. The mutable and the read-only binding agree whenever
`do_start_subset` is given the bulletin's own subset: two bindings on the same
bulletin with the same `Visitor` members return the same values and throw the same
errors at the same points on every sequence of calls of `do_start_subset`,
`get_var()`, `get_var(pos)` and `do_bitmap` that starts with a `do_start_subset`
and in which each `do_start_subset(idx, sub)` has `sub` equal to subset `idx` of
the bulletin; the same holds from any pair of bindings that hold the same members
and are bound to the bulletin. After such a `do_start_subset` both read from
subset `idx` of the bulletin. A `do_start_subset` whose `idx` is not below the
number of subsets throws the same `error_consistency` on both, for every subset
argument. -/
theorem bindings_agree :
    (∀ (calls : List BindingCall) (b : Interp BaseVisitor) (c : Interp ConstBaseVisitor),
      same_binding b c →
      (∀ idx sub, BindingCall.do_start_subset idx sub ∈ calls →
        b.ext.bulletin.subsets[idx]? = some sub) →
      BaseVisitor.perform_all calls b = ConstBaseVisitor.perform_all calls c) ∧
    (∀ (calls : List BindingCall) (b : Interp BaseVisitor) (c : Interp ConstBaseVisitor)
        (idx0 : Nat) (sub0 : Subset),
      b.vis = c.vis → b.ext.bulletin = c.ext.bulletin →
      b.ext.bulletin.subsets[idx0]? = some sub0 →
      (∀ idx sub, BindingCall.do_start_subset idx sub ∈ calls →
        b.ext.bulletin.subsets[idx]? = some sub) →
      BaseVisitor.perform_all (.do_start_subset idx0 sub0 :: calls) b =
        ConstBaseVisitor.perform_all (.do_start_subset idx0 sub0 :: calls) c ∧
      (BaseVisitor.perform (.do_start_subset idx0 sub0) b).2.vis.current_subset = sub0 ∧
      (ConstBaseVisitor.perform (.do_start_subset idx0 sub0) c).2.vis.current_subset = sub0) ∧
    (∀ (b : Interp BaseVisitor) (c : Interp ConstBaseVisitor) (idx : Nat) (sub : Subset),
      b.ext.bulletin = c.ext.bulletin → b.ext.bulletin.subsets.length ≤ idx →
      (BaseVisitor.perform (.do_start_subset idx sub) b).1 =
        .error (.consistency [idx, b.ext.bulletin.subsets.length]) ∧
      (ConstBaseVisitor.perform (.do_start_subset idx sub) c).1 =
        .error (.consistency [idx, b.ext.bulletin.subsets.length])) := by
  refine ⟨perform_all_same, ?_, ?_⟩
  · intro calls b c idx0 sub0 hv hb hsub hcalls
    obtain ⟨h1, h2, h3, h4, h5⟩ := perform_start_same b c idx0 sub0 hv hb hsub
    refine ⟨?_, h4, ?_⟩
    · unfold BaseVisitor.perform_all ConstBaseVisitor.perform_all
      rw [h1, h2, perform_all_same calls _ _ h3 (fun idx sub hmem => by
        rw [h5]; exact hcalls idx sub hmem)]
    · rw [← h3.1]; exact h4
  · intro b c idx sub hb hlen
    have hn1 : ¬ idx < b.ext.bulletin.subsets.length := by omega
    have hn2 : ¬ idx < c.ext.bulletin.subsets.length := by rw [← hb]; exact hn1
    simp [BaseVisitor.perform, ConstBaseVisitor.perform, base_do_start_subset_eq,
      const_do_start_subset_eq, hn1, hn2, Except.map, hb]

/-- A run of C15 as amended: both bindings on `ex_bulletin`, started on its
subset 1, then read past its single value. -/
theorem bindings_agree_witness :
    BaseVisitor.perform_all
        [.do_start_subset 1 [ex_var (WR_VAR 0 1 1)], .get_var, .get_var, .do_bitmap 0 0,
          .get_var_pos 0] ex_base =
      ConstBaseVisitor.perform_all
        [.do_start_subset 1 [ex_var (WR_VAR 0 1 1)], .get_var, .get_var, .do_bitmap 0 0,
          .get_var_pos 0] ex_const :=
  (bindings_agree.2.1 [.get_var, .get_var, .do_bitmap 0 0, .get_var_pos 0] ex_base ex_const 1
    [ex_var (WR_VAR 0 1 1)] rfl rfl rfl (fun idx sub hmem => by simp at hmem)).1

/-- With the tracker at its end, `b_variable` is its second branch, whatever the
descriptor: `get_varinfo`, the associated field if one is active, `do_var`,
`++data_pos`. -/
theorem b_variable_at_end {β Ops : Type} (d : Delegate β Ops) (code : Varcode) (s : Interp β)
    (heob : s.vis.bitmap.eob = true) :
    Visitor.b_variable d code s =
      (do
        let info ← M.lift (s.vis.get_varinfo code)
        if s.vis.c04_bits > 0 then
          Interp.call (d.do_associated_field s.vis.c04_bits s.vis.c04_meaning)
        Interp.call (d.do_var info)
        Interp.update fun v => { v with data_pos := v.data_pos + 1 } : M (Interp β) Unit) s := by
  unfold Visitor.b_variable
  simp only [M.bind_apply, Interp.read, heob, Bool.true_eq_false, and_false, if_false]

/-- On the recording backend, in a state that satisfies `tracker_ok`, `b_variable`
fails exactly as `get_varinfo` fails. -/
theorem b_variable_recorded_outcome {Ops : Type} (answer : Varinfo → Var) (bitmap_var : Var)
    (code : Varcode) (t : Interp (List Event)) (hok : t.vis.tracker_ok) :
    (Visitor.b_variable (recorder answer bitmap_var : Delegate (List Event) Ops) code t).1 =
      (t.vis.get_varinfo code).map fun _ => () := by
  cases hinfo : t.vis.get_varinfo code with
  | error e =>
    unfold Visitor.b_variable
    simp [M.bind_apply, Interp.read, M.lift, hinfo, Except.map]
  | ok m =>
    by_cases hc : WR_VAR_F code = 0 ∧ WR_VAR_X code = 33 ∧ t.vis.bitmap.eob = false
    · obtain ⟨k, hk, hiter, _⟩ := next_of_not_eob hok.1 hc.2.2
      rw [b_variable_attr _ code m t k _ hinfo hc.1 hc.2.1 hiter (List.getElem?_eq_getElem hk)]
      rfl
    · rw [b_variable_value _ code m t hinfo hc]
      by_cases h04 : t.vis.c04_bits > 0
      · simp [h04, M.bind_apply, Interp.call, recorder_do_associated_field, recorder_do_var,
          Interp.update, Except.map]
      · simp [h04, M.bind_apply, M.pure_apply, Interp.call, recorder_do_var, Interp.update,
          Except.map]

/-- On the recording backend, in a state that satisfies `tracker_ok`,
`c_substituted_value` returns normally or throws its own `error_consistency`. -/
theorem c_substituted_value_recorded_outcome {Ops : Type} (answer : Varinfo → Var)
    (bitmap_var : Var) (code : Varcode) (t : Interp (List Event)) (hok : t.vis.tracker_ok) :
    (Visitor.c_substituted_value
        (recorder answer bitmap_var : Delegate (List Event) Ops) code t).1 = .ok () ∨
    (Visitor.c_substituted_value
        (recorder answer bitmap_var : Delegate (List Event) Ops) code t).1 =
      .error (.consistency []) := by
  by_cases h : t.vis.bitmap.bitmap = none ∨ t.vis.bitmap.eob = true
  · right
    rw [c_substituted_value_guard _ code t h]
  · left
    have hb : t.vis.bitmap.bitmap ≠ none := fun hn => h (Or.inl hn)
    have heob : t.vis.bitmap.eob = false := by
      cases he : t.vis.bitmap.eob with
      | false => rfl
      | true => exact absurd (Or.inr he) h
    obtain ⟨k, hk, var, hiter, hvar⟩ := tracker_ok_target hok heob
    rw [c_substituted_value_attr _ code t k _ var hb hiter (List.getElem?_eq_getElem hk) hvar]
    rfl

/-- A bitmap without a `+` leaves the tracker at its end. -/
theorem init_no_present {self b1 : Bitmap} {bitmap : Var} {subset : Subset} {anchor : Nat}
    (h : self.init bitmap subset anchor = (.ok (), b1))
    (hno : ∀ i, i < bitmap.info.len → bitmap.value[i]? ≠ some '+') : b1.eob = true := by
  obtain ⟨_, _, _, hb1⟩ := init_ok h
  have hnil : bitmap_targets bitmap subset (self.effective_anchor anchor) = [] := by
    unfold bitmap_targets
    rw [List.filterMap_eq_nil_iff]
    intro i hi
    simp [hno i (List.mem_range.mp hi)]
  subst hb1
  simp [Bitmap.eob, hnil]

/-- C17. `next()` is called only under `!eob()`, and then it reads inside the
queue of references.
(1) After `do_start_subset` the tracker satisfies `tracker_ok` (the iterator stands
inside the queue, and every reference is a position of the current subset) and is
at its end.
(2) Every traversal that returns normally keeps `tracker_ok`: any sequence of
callbacks, the groups of replications being traversals themselves.
(3) In any state at all in which `eob()` is true, `b_variable(code)` is, for every
descriptor and every backend, exactly its value branch (`get_varinfo`, the
associated field if one is active, `do_var`, `++data_pos`), in which `next()` is not
called; the tracker is left as it is; and `c_substituted_value` throws
`error_consistency` with the object unchanged.
(4) Where `tracker_ok` holds and `eob()` is false, `next()` returns the reference
under the iterator, which lies inside the queue.
(5) In any state in which no bitmap is active, `c_substituted_value` throws
`error_consistency` with the object unchanged.
(6) Where `tracker_ok` holds and `eob()` is false, `b_variable` of a descriptor
with F = 0 and X = 33 is exactly `do_attr` on the reference under the iterator,
which is consumed, and (7) `c_substituted_value` with a bitmap active is exactly
`do_attr` on that reference and the value stored there.
(8) On the recording backend, which never fails itself, in every state reached
from `do_start_subset` by a traversal that returned normally, `b_variable` fails
only as `get_varinfo` fails, and `c_substituted_value` returns normally or throws
`error_consistency`: neither ends in the undefined read of `next()` past the end.
(9) After a `Bitmap::init` that returns normally for a bitmap without a `+`,
`eob()` is true. -/
theorem exhausted_bitmap_never_consumed :
    (∀ (v0 : Visitor) (idx : Nat) (subset : Subset),
      (v0.do_start_subset idx subset).tracker_ok ∧
      (v0.do_start_subset idx subset).bitmap.eob = true) ∧
    (∀ (β Ops : Type) (d : Delegate β Ops) (x : M (Interp β) Unit), Traversal d x →
      ∀ s t : Interp β, s.vis.tracker_ok → x s = (.ok (), t) → t.vis.tracker_ok) ∧
    (∀ (β Ops : Type) (d : Delegate β Ops) (code : Varcode) (s : Interp β),
      s.vis.bitmap.eob = true →
      Visitor.b_variable d code s =
        (do
          let info ← M.lift (s.vis.get_varinfo code)
          if s.vis.c04_bits > 0 then
            Interp.call (d.do_associated_field s.vis.c04_bits s.vis.c04_meaning)
          Interp.call (d.do_var info)
          Interp.update fun v => { v with data_pos := v.data_pos + 1 } :
            M (Interp β) Unit) s ∧
      (Visitor.b_variable d code s).2.vis.bitmap = s.vis.bitmap ∧
      Visitor.c_substituted_value d code s = (.error (.consistency []), s)) ∧
    (∀ v : Visitor, v.tracker_ok → v.bitmap.eob = false →
      ∃ k, ∃ hk : k < v.bitmap.refs.length, v.bitmap.iter = k + 1 ∧
        v.bitmap.next = (.ok v.bitmap.refs[k], { v.bitmap with iter := k })) ∧
    (∀ (β Ops : Type) (d : Delegate β Ops) (code : Varcode) (s : Interp β),
      s.vis.bitmap.bitmap = none →
      Visitor.c_substituted_value d code s = (.error (.consistency []), s)) ∧
    (∀ (β Ops : Type) (d : Delegate β Ops) (code : Varcode) (m : Varinfo) (s : Interp β),
      s.vis.get_varinfo code = .ok m → s.vis.tracker_ok →
      WR_VAR_F code = 0 → WR_VAR_X code = 33 → s.vis.bitmap.eob = false →
      ∃ k, ∃ hk : k < s.vis.bitmap.refs.length, s.vis.bitmap.iter = k + 1 ∧
        Visitor.b_variable d code s =
          Interp.call (d.do_attr m s.vis.bitmap.refs[k] code)
            { s with vis := { s.vis with bitmap := { s.vis.bitmap with iter := k } } }) ∧
    (∀ (β Ops : Type) (d : Delegate β Ops) (code : Varcode) (s : Interp β),
      s.vis.tracker_ok → s.vis.bitmap.bitmap ≠ none → s.vis.bitmap.eob = false →
      ∃ k, ∃ hk : k < s.vis.bitmap.refs.length, ∃ var,
        s.vis.bitmap.iter = k + 1 ∧
        s.vis.current_subset[s.vis.bitmap.refs[k]]? = some var ∧
        Visitor.c_substituted_value d code s =
          Interp.call (d.do_attr var.info s.vis.bitmap.refs[k] var.info.var)
            { s with vis := { s.vis with bitmap := { s.vis.bitmap with iter := k } } }) ∧
    (∀ (Ops : Type) (answer : Varinfo → Var) (bitmap_var : Var)
      (x : M (Interp (List Event)) Unit),
      Traversal (recorder answer bitmap_var : Delegate (List Event) Ops) x →
      ∀ (v0 : Visitor) (idx : Nat) (subset : Subset) (log : List Event)
        (t : Interp (List Event)),
      x { vis := v0.do_start_subset idx subset, ext := log } = (.ok (), t) →
      ∀ code : Varcode,
        (Visitor.b_variable (recorder answer bitmap_var : Delegate (List Event) Ops) code t).1 =
          ((t.vis.get_varinfo code).map fun _ => ()) ∧
        ((Visitor.c_substituted_value
            (recorder answer bitmap_var : Delegate (List Event) Ops) code t).1 = .ok () ∨
          (Visitor.c_substituted_value
            (recorder answer bitmap_var : Delegate (List Event) Ops) code t).1 =
              .error (.consistency []))) ∧
    (∀ (b b1 : Bitmap) (bitmap : Var) (subset : Subset) (anchor : Nat),
      b.init bitmap subset anchor = (.ok (), b1) →
      (∀ i, i < bitmap.info.len → bitmap.value[i]? ≠ some '+') →
      b1.eob = true) := by
  have hstart : ∀ (v0 : Visitor) (idx : Nat) (subset : Subset),
      (v0.do_start_subset idx subset).tracker_ok := by
    intro v0 idx subset
    refine ⟨?_, ?_, ?_⟩
    · simp [Visitor.do_start_subset, Bitmap.reset]
    · intro _
      rfl
    · intro r hr
      simp [Visitor.do_start_subset, Bitmap.reset] at hr
  refine ⟨?_, ?_, ?_, ?_, ?_, ?_, ?_, ?_, ?_⟩
  · intro v0 idx subset
    exact ⟨hstart v0 idx subset, rfl⟩
  · intro β Ops d x hx s t hs h
    exact keeps_traversal d x hx s () t hs h
  · intro β Ops d code s heob
    refine ⟨b_variable_at_end d code s heob, ?_, c_substituted_value_guard d code s (Or.inr heob)⟩
    cases hinfo : s.vis.get_varinfo code with
    | error e =>
      unfold Visitor.b_variable
      simp [M.bind_apply, Interp.read, M.lift, hinfo]
    | ok m =>
      rw [b_variable_value d code m s hinfo (by simp [heob])]
      exact (frames_b_variable_tail d s.vis m s).1
  · intro v hok heob
    exact next_of_not_eob hok.1 heob
  · intro β Ops d code s hnone
    exact c_substituted_value_guard d code s (Or.inl hnone)
  · intro β Ops d code m s hinfo hok hF hX heob
    obtain ⟨k, hk, hiter, _⟩ := next_of_not_eob hok.1 heob
    exact ⟨k, hk, hiter,
      b_variable_attr d code m s k _ hinfo hF hX hiter (List.getElem?_eq_getElem hk)⟩
  · intro β Ops d code s hok hb heob
    obtain ⟨k, hk, var, hiter, hvar⟩ := tracker_ok_target hok heob
    exact ⟨k, hk, var, hiter, hvar,
      c_substituted_value_attr d code s k _ var hb hiter (List.getElem?_eq_getElem hk) hvar⟩
  · intro Ops answer bitmap_var x hx v0 idx subset log t h code
    have hok : t.vis.tracker_ok :=
      keeps_traversal _ x hx { vis := v0.do_start_subset idx subset, ext := log } () t
        (hstart v0 idx subset) h
    exact ⟨b_variable_recorded_outcome answer bitmap_var code t hok,
      c_substituted_value_recorded_outcome answer bitmap_var code t hok⟩
  · intro b b1 bitmap subset anchor h hno
    exact init_no_present h hno

/-- A run of C17. From `ex_interp_bitmap`, whose bitmap has two references pending,
three attribute descriptors in sequence: the third finds the tracker at its end, and
`tracker_ok` still holds afterwards. Right after `do_start_subset`, where no bitmap
was initialised, `b_variable` of the attribute descriptor B33007 returns normally:
it takes the value branch and does not read the empty queue. -/
theorem exhausted_bitmap_never_consumed_witness :
    ((Visitor.b_variable (recorder ex_answer (ex_bitmap ['+']) : Delegate _ Unit)
        (WR_VAR 0 33 7) >>= fun _ =>
      Visitor.b_variable (recorder ex_answer (ex_bitmap ['+']) : Delegate _ Unit)
        (WR_VAR 0 33 7) >>= fun _ =>
      Visitor.b_variable (recorder ex_answer (ex_bitmap ['+']) : Delegate _ Unit)
        (WR_VAR 0 33 7)) ex_interp_bitmap).2.vis.tracker_ok ∧
    ((Visitor.b_variable (recorder ex_answer (ex_bitmap ['+']) : Delegate (List Event) Unit)
        (WR_VAR 0 33 7) { vis := ex_visitor.do_start_subset 0 ex_subset, ext := [] }).1 =
      .ok ()) :=
  ⟨exhausted_bitmap_never_consumed.2.1 (List Event) Unit (recorder ex_answer (ex_bitmap ['+'])) _
    (Traversal.seq (Traversal.b_variable (WR_VAR 0 33 7))
      (Traversal.seq (Traversal.b_variable (WR_VAR 0 33 7))
        (Traversal.b_variable (WR_VAR 0 33 7))))
    ex_interp_bitmap _ ⟨by decide, by decide, by decide⟩ rfl,
   ((exhausted_bitmap_never_consumed.2.2.2.2.2.2.2.1 Unit ex_answer (ex_bitmap ['+']) (pure ())
    Traversal.done ex_visitor 0 ex_subset []
    { vis := ex_visitor.do_start_subset 0 ex_subset, ext := [] } rfl (WR_VAR 0 33 7)).1).trans
    (by decide)⟩

/-! ## When `Bitmap::init` succeeds -/

/-- Within the subset and the characters of the bitmap, the outer loop returns
normally when at least as many plain positions are left as bits. -/
theorem init_loop_succeeds {bitmap : Var} {subset : Subset} {b_cur : Nat} :
    ∀ {s_cur : Nat} (refs : List Nat), s_cur < subset.length → b_cur < bitmap.value.length →
    b_cur < (plain_below subset (s_cur + 1)).length →
    ∃ out, Bitmap.init_loop bitmap subset b_cur s_cur refs = (.ok (), out) := by
  induction b_cur with
  | zero =>
    intro s_cur refs hs hb hp
    unfold Bitmap.init_loop
    rcases init_skip_total hs with ⟨h1, _⟩ | ⟨s, _, h2⟩
    · rw [h1] at hp
      simp at hp
    · simp only [h2, List.getElem?_eq_getElem hb]
      exact ⟨_, rfl⟩
  | succ b ih =>
    intro s_cur refs hs hb hp
    unfold Bitmap.init_loop
    rcases init_skip_total hs with ⟨h1, _⟩ | ⟨s, hle, h2⟩
    · rw [h1] at hp
      simp at hp
    · have hpl := init_skip_ok h2
      rw [hpl] at hp
      simp only [List.length_cons] at hp
      have hs0 : s ≠ 0 := by
        intro h0
        rw [h0, plain_below_zero] at hp
        simp at hp
      have hs1 : s - 1 + 1 = s := by omega
      simp only [h2, List.getElem?_eq_getElem hb, hs0, if_false]
      apply ih
      · omega
      · omega
      · rw [hs1]
        omega

theorem plain_below_pairwise (subset : Subset) (a : Nat) :
    (plain_below subset a).Pairwise (· > ·) := by
  unfold plain_below
  apply List.Pairwise.filter
  rw [List.pairwise_reverse]
  exact List.pairwise_lt_range a

/-- The references of a bitmap come in strictly increasing order. -/
theorem bitmap_targets_pairwise (bitmap : Var) (subset : Subset) (a : Nat) :
    (bitmap_targets bitmap subset a).Pairwise (· < ·) := by
  unfold bitmap_targets
  have hrange : (List.range bitmap.info.len).Pairwise
      (fun i j => i < j ∧ j < bitmap.info.len) :=
    List.Pairwise.imp_of_mem (fun _ hb hab => ⟨hab, by simpa using hb⟩)
      (List.pairwise_lt_range bitmap.info.len)
  refine List.Pairwise.filterMap _ ?_ hrange
  intro i j ⟨hij, hj⟩ x hx y hy
  simp only [Option.mem_def] at hx hy
  split at hx
  · split at hy
    · obtain ⟨hi1, hi2⟩ := List.getElem?_eq_some.mp hx
      obtain ⟨hj1, hj2⟩ := List.getElem?_eq_some.mp hy
      have := List.pairwise_iff_getElem.mp (plain_below_pairwise subset a)
        (bitmap.info.len - j - 1) (bitmap.info.len - i - 1) hj1 hi1 (by omega)
      rw [hi2, hj2] at this
      exact this
    · cases hy
  · cases hx

/-- C18. For a freshly reset tracker, a bitmap of declared length `L ≥ 1` whose
value holds at least `L` characters, and an anchor `a` with `1 ≤ a ≤` the size of
the subset: `Bitmap::init` returns normally (no exception, no access out of range)
if and only if at least `L` positions below `a` have descriptor class F = 0, and
otherwise it throws `error_consistency`. When it returns normally, the references
that `next()` yields are `bitmap_targets`; each is a position below `a` of class
F = 0, and they are strictly increasing in the order `next()` yields them. -/
theorem bitmap_init_succeeds_iff (b0 : Bitmap) (bitmap : Var) (subset : Subset) (a : Nat)
    (hL : 1 ≤ bitmap.info.len) (hv : bitmap.info.len ≤ bitmap.value.length)
    (ha1 : 1 ≤ a) (ha2 : a ≤ subset.length) :
    ((b0.reset.init bitmap subset a).1 = .ok () ↔
      bitmap.info.len ≤ (plain_below subset a).length) ∧
    (¬ bitmap.info.len ≤ (plain_below subset a).length →
      (b0.reset.init bitmap subset a).1 = .error (.consistency [])) ∧
    (bitmap.info.len ≤ (plain_below subset a).length →
      ((b0.reset.init bitmap subset a).2.drain
          (b0.reset.init bitmap subset a).2.refs.length).1 = bitmap_targets bitmap subset a ∧
      ((b0.reset.init bitmap subset a).2.drain
          (b0.reset.init bitmap subset a).2.refs.length).2.eob = true ∧
      (∀ r ∈ ((b0.reset.init bitmap subset a).2.drain
          (b0.reset.init bitmap subset a).2.refs.length).1,
        r < a ∧ ∃ v, subset[r]? = some v ∧ WR_VAR_F v.code = 0) ∧
      ((b0.reset.init bitmap subset a).2.drain
          (b0.reset.init bitmap subset a).2.refs.length).1.Pairwise (· < ·)) := by
  have hanchor : b0.reset.effective_anchor a = a := by
    simp [Bitmap.effective_anchor, Bitmap.reset]
  have hl0 : bitmap.info.len ≠ 0 := by omega
  have ha0 : a ≠ 0 := by omega
  have hA : a - 1 + 1 = a := by omega
  have hfrom : Bitmap.init_from bitmap subset a =
      Bitmap.init_loop bitmap subset (bitmap.info.len - 1) (a - 1) [] := by
    simp [Bitmap.init_from, hl0, ha0]
  have hres : (b0.reset.init bitmap subset a).1 =
      (Bitmap.init_loop bitmap subset (bitmap.info.len - 1) (a - 1) []).1 := by
    rw [init_eq, hanchor, hfrom]
  have hfail : ¬ bitmap.info.len ≤ (plain_below subset a).length →
      (b0.reset.init bitmap subset a).1 = .error (.consistency []) := by
    intro hn
    rw [hres]
    apply init_loop_fails
    · omega
    · omega
    · rw [hA]
      omega
  have hsucc : bitmap.info.len ≤ (plain_below subset a).length →
      (b0.reset.init bitmap subset a).1 = .ok () := by
    intro hle
    rw [hres]
    obtain ⟨out, hout⟩ := @init_loop_succeeds bitmap subset (bitmap.info.len - 1) (a - 1) []
      (by omega) (by omega) (by rw [hA]; omega)
    rw [hout]
  refine ⟨⟨?_, hsucc⟩, hfail, ?_⟩
  · intro hok
    by_contra hn
    rw [hfail hn] at hok
    cases hok
  · intro hle
    have hinit : b0.reset.init bitmap subset a = (.ok (), (b0.reset.init bitmap subset a).2) :=
      Prod.ext (hsucc hle) rfl
    obtain ⟨_, _, _, hb1⟩ := init_ok hinit
    rw [hanchor] at hb1
    have hdrain := drain_spec (bitmap_targets bitmap subset a).length
      (b0.reset.init bitmap subset a).2 (by rw [hb1]; simp)
    have hlen : (b0.reset.init bitmap subset a).2.refs.length =
        (bitmap_targets bitmap subset a).length := by
      rw [hb1]; simp
    have hyield : ((b0.reset.init bitmap subset a).2.drain
        (b0.reset.init bitmap subset a).2.refs.length).1 = bitmap_targets bitmap subset a := by
      rw [hlen, hdrain.1, hb1]
      have hall : List.take (bitmap_targets bitmap subset a).length
          (bitmap_targets bitmap subset a).reverse = (bitmap_targets bitmap subset a).reverse :=
        List.take_of_length_le (by simp)
      show List.take (bitmap_targets bitmap subset a).length
        (List.take (bitmap_targets bitmap subset a).length
          (bitmap_targets bitmap subset a).reverse).reverse = _
      rw [hall, List.reverse_reverse, List.take_length]
    have heob : ((b0.reset.init bitmap subset a).2.drain
        (b0.reset.init bitmap subset a).2.refs.length).2.eob = true := by
      rw [hlen, hdrain.2, hb1]
      simp [Bitmap.eob]
    refine ⟨hyield, heob, ?_, ?_⟩
    · intro r hr
      rw [hyield] at hr
      unfold bitmap_targets at hr
      rw [List.mem_filterMap] at hr
      obtain ⟨i, _, hi⟩ := hr
      split at hi
      · exact mem_plain_below (List.getElem?_mem hi)
      · cases hi
    · rw [hyield]
      exact bitmap_targets_pairwise bitmap subset a

/-- A run of C18: the bitmap `+-+` anchored at position 4 of `ex_subset`, below
which three plain positions lie. -/
theorem bitmap_init_succeeds_iff_witness :
    (ex_tracker.reset.init (ex_bitmap ['+', '-', '+']) ex_subset 4).1 = .ok () ↔
      (ex_bitmap ['+', '-', '+']).info.len ≤ (plain_below ex_subset 4).length :=
  (bitmap_init_succeeds_iff ex_tracker (ex_bitmap ['+', '-', '+']) ex_subset 4
    (by decide) (by decide) (by decide) (by decide)).1

/-! ## Arguments and modifiers that have no effect -/

theorem get_varinfo_altered (self : Visitor) (code : Varcode) (base : Varinfo)
    (hq : self.btable.query code = .ok base)
    (hnz : ¬ (self.c_scale_change = 0 ∧ self.c_width_change = 0 ∧
      self.c_string_len_override = 0)) :
    self.get_varinfo code =
      self.btable.query_altered code (base.scale + self.c_scale_change)
        (if base.is_string = true ∧ self.c_string_len_override ≠ 0 then
          8 * (self.c_string_len_override : Int)
        else (base.bit_len : Int) + self.c_width_change) := by
  unfold Visitor.get_varinfo
  simp only [hq, hnz, if_false]
  have hscale : (if self.c_scale_change ≠ 0 then base.scale + self.c_scale_change
      else base.scale) = base.scale + self.c_scale_change := by
    by_cases h : self.c_scale_change = 0 <;> simp [h]
  have hwidth : (if self.c_width_change ≠ 0 then (base.bit_len : Int) + self.c_width_change
      else (base.bit_len : Int)) = (base.bit_len : Int) + self.c_width_change := by
    by_cases h : self.c_width_change = 0 <;> simp [h]
  rw [hscale, hwidth, Int.mul_comm]

/-- `r_replication` with a delayed count on the recording backend. -/
theorem r_replication_delayed_recorded {Ops : Type} (answer : Varinfo → Var) (bitmap_var : Var)
    (code delayed_code : Varcode) (ops : Ops) (t : Interp (List Event)) (info : Varinfo)
    (c : Int) (hY : WR_VAR_Y code = 0) (hw : t.vis.want_bitmap = false)
    (hq : t.vis.btable.query (if delayed_code ≠ 0 then delayed_code else WR_VAR 0 31 12) =
      .ok info)
    (hc : (answer info).enqi = .ok c) :
    Visitor.r_replication (recorder answer bitmap_var) recorded_group code delayed_code ops t =
      (.ok (),
        { vis := { t.vis with data_pos := t.vis.data_pos + 1 }
          ext := t.ext ++ .semantic_var info ::
            (List.range (to_unsigned c)).flatMap fun i =>
              [.start_repetition i, .traverse (t.vis.data_pos + 1)] }) := by
  unfold Visitor.r_replication
  simp only [M.bind_apply, Interp.read, hw, hY, Bool.false_eq_true, if_false, if_true,
    M.pure_apply, M.lift, hq, Interp.call, recorder_do_semantic_var, hc, Interp.update,
    r_replication_loop_recorded, List.range_eq_range']
  simp

/-- `c_associated_field` with a width from 1 to 32 and no field active, on the
recording backend. -/
theorem c_associated_field_recorded {Ops : Type} (answer : Varinfo → Var) (bitmap_var : Var)
    (code sig_code : Varcode) (nbits : Nat) (t : Interp (List Event)) (info : Varinfo)
    (m : Int) (hY : WR_VAR_Y code ≠ 0) (h32 : WR_VAR_Y code ≤ 32) (h04 : t.vis.c04_bits = 0)
    (hq : t.vis.btable.query (WR_VAR 0 31 21) = .ok info)
    (hm : (answer info).enqi = .ok m) :
    Visitor.c_associated_field (recorder answer bitmap_var : Delegate (List Event) Ops)
        code sig_code nbits t =
      (.ok (),
        { vis := { t.vis with
                   c04_meaning := m
                   data_pos := t.vis.data_pos + 1
                   c04_bits := WR_VAR_Y code }
          ext := t.ext ++ [.semantic_var info] }) := by
  have hn32 : ¬ (32 < WR_VAR_Y code) := by omega
  unfold Visitor.c_associated_field
  simp [M.bind_apply, M.pure_apply, Interp.read, M.lift, hY, hn32, h04, hq, Interp.call,
    recorder_do_semantic_var, hm, Interp.update]

/-- C19. The arguments `sig_code` and `nbits` of `c_associated_field` and the
argument `nbits` of `c_local_descriptor` have no influence: on every backend, two
calls that differ only in them are the same function of the object, so they throw
or return alike, make the same backend calls and leave the same object. The width
that `c_associated_field` stores is the item field `WR_VAR_Y(code)`; whenever that
field is non-zero (and at most 32, with no field active) the significance B31021
is transferred with `do_semantic_var`, also when `sig_code` is 0; when the item
field is 0 nothing is transferred and the width stored is 0. -/
theorem width_arguments_unused (code : Varcode) :
    (∀ (β Ops : Type) (d : Delegate β Ops) (sig1 sig2 : Varcode) (n1 n2 : Nat),
      (Visitor.c_associated_field d code sig1 n1 : M (Interp β) Unit) =
        Visitor.c_associated_field d code sig2 n2) ∧
    (∀ (β Ops : Type) (d : Delegate β Ops) (desc_code : Varcode) (n1 n2 : Nat),
      (Visitor.c_local_descriptor d code desc_code n1 : M (Interp β) Unit) =
        Visitor.c_local_descriptor d code desc_code n2) ∧
    (∀ (Ops : Type) (answer : Varinfo → Var) (bitmap_var : Var) (sig_code : Varcode)
        (nbits : Nat) (t : Interp (List Event)) (info : Varinfo) (m : Int),
      WR_VAR_Y code ≠ 0 → WR_VAR_Y code ≤ 32 → t.vis.c04_bits = 0 →
      t.vis.btable.query (WR_VAR 0 31 21) = .ok info → (answer info).enqi = .ok m →
      Visitor.c_associated_field (recorder answer bitmap_var : Delegate (List Event) Ops)
          code sig_code nbits t =
        (.ok (),
          { vis := { t.vis with
                     c04_meaning := m
                     data_pos := t.vis.data_pos + 1
                     c04_bits := WR_VAR_Y code }
            ext := t.ext ++ [.semantic_var info] })) ∧
    (∀ (β Ops : Type) (d : Delegate β Ops) (sig_code : Varcode) (nbits : Nat) (s : Interp β),
      WR_VAR_Y code = 0 →
      Visitor.c_associated_field d code sig_code nbits s =
        (.ok (), { s with vis := { s.vis with c04_bits := 0 } })) := by
  refine ⟨?_, ?_, ?_, ?_⟩
  · intro β Ops d sig1 sig2 n1 n2
    rfl
  · intro β Ops d desc_code n1 n2
    rfl
  · intro Ops answer bitmap_var sig_code nbits t info m hY h32 h04 hq hm
    exact c_associated_field_recorded answer bitmap_var code sig_code nbits t info m hY h32 h04
      hq hm
  · intro β Ops d sig_code nbits s hY
    unfold Visitor.c_associated_field
    simp [M.bind_apply, M.pure_apply, Interp.read, hY, Interp.update]

/-- A run of C19: the operator `C 04 008` on `ex_interp`, called with no
significance code and with `nbits = 99`. -/
theorem width_arguments_unused_witness :
    Visitor.c_associated_field (recorder ex_answer (ex_bitmap ['+']) : Delegate _ Unit)
        (WR_VAR 2 4 8) 0 99 ex_interp =
      (.ok (),
        { vis := { ex_interp.vis with
                   c04_meaning := 3
                   data_pos := ex_interp.vis.data_pos + 1
                   c04_bits := WR_VAR_Y (WR_VAR 2 4 8) }
          ext := ex_interp.ext ++ [.semantic_var (ex_info (WR_VAR 0 31 21))] }) :=
  (width_arguments_unused (WR_VAR 2 4 8)).2.2.1 Unit ex_answer (ex_bitmap ['+']) 0 99 ex_interp
    (ex_info (WR_VAR 0 31 21)) 3 (by decide) (by decide) rfl rfl rfl

/-- C20. The record handed to `do_semantic_var` is the one `btable->query`
returns, whatever the scale change, the width change and the string length
override are: for the count of a delayed replication (the record of
`delayed_code`, or of B31012 when none is given) and for the significance B31021
of an associated field. The same code passed to `b_variable` is resolved with
`get_varinfo`: when a modifier is active the record handed to `do_var` is the one
`btable->query_altered` returns for the changed scale and width. -/
theorem semantic_descriptors_unmodified :
    (∀ (Ops : Type) (answer : Varinfo → Var) (bitmap_var : Var) (code delayed_code : Varcode)
        (ops : Ops) (t : Interp (List Event)) (info : Varinfo) (c : Int),
      WR_VAR_Y code = 0 → t.vis.want_bitmap = false →
      t.vis.btable.query (if delayed_code ≠ 0 then delayed_code else WR_VAR 0 31 12) =
        .ok info →
      (answer info).enqi = .ok c →
      Visitor.r_replication (recorder answer bitmap_var) recorded_group code delayed_code ops t =
        (.ok (),
          { vis := { t.vis with data_pos := t.vis.data_pos + 1 }
            ext := t.ext ++ .semantic_var info ::
              (List.range (to_unsigned c)).flatMap fun i =>
                [.start_repetition i, .traverse (t.vis.data_pos + 1)] })) ∧
    (∀ (Ops : Type) (answer : Varinfo → Var) (bitmap_var : Var) (code sig_code : Varcode)
        (nbits : Nat) (t : Interp (List Event)) (info : Varinfo) (m : Int),
      WR_VAR_Y code ≠ 0 → WR_VAR_Y code ≤ 32 → t.vis.c04_bits = 0 →
      t.vis.btable.query (WR_VAR 0 31 21) = .ok info → (answer info).enqi = .ok m →
      Visitor.c_associated_field (recorder answer bitmap_var : Delegate (List Event) Ops)
          code sig_code nbits t =
        (.ok (),
          { vis := { t.vis with
                     c04_meaning := m
                     data_pos := t.vis.data_pos + 1
                     c04_bits := WR_VAR_Y code }
            ext := t.ext ++ [.semantic_var info] })) ∧
    (∀ (Ops : Type) (answer : Varinfo → Var) (bitmap_var : Var) (code : Varcode)
        (t : Interp (List Event)) (base altered : Varinfo),
      t.vis.btable.query code = .ok base →
      ¬ (t.vis.c_scale_change = 0 ∧ t.vis.c_width_change = 0 ∧
        t.vis.c_string_len_override = 0) →
      t.vis.btable.query_altered code (base.scale + t.vis.c_scale_change)
        (if base.is_string = true ∧ t.vis.c_string_len_override ≠ 0 then
          8 * (t.vis.c_string_len_override : Int)
        else (base.bit_len : Int) + t.vis.c_width_change) = .ok altered →
      ¬ (WR_VAR_F code = 0 ∧ WR_VAR_X code = 33 ∧ t.vis.bitmap.eob = false) →
      t.vis.c04_bits = 0 →
      Visitor.b_variable (recorder answer bitmap_var : Delegate (List Event) Ops) code t =
        (.ok (), { vis := { t.vis with data_pos := t.vis.data_pos + 1 }
                   ext := t.ext ++ [.var altered] })) := by
  refine ⟨?_, ?_, ?_⟩
  · intro Ops answer bitmap_var code delayed_code ops t info c hY hw hq hc
    exact r_replication_delayed_recorded answer bitmap_var code delayed_code ops t info c hY hw
      hq hc
  · intro Ops answer bitmap_var code sig_code nbits t info m hY h32 h04 hq hm
    exact c_associated_field_recorded answer bitmap_var code sig_code nbits t info m hY h32 h04
      hq hm
  · intro Ops answer bitmap_var code t base altered hq hnz halt hc h04
    have hinfo : t.vis.get_varinfo code = .ok altered := by
      rw [get_varinfo_altered t.vis code base hq hnz]
      exact halt
    exact b_variable_recorded_plain answer bitmap_var code altered t hinfo hc h04

/-- A run of C20 on `ex_interp` (scale change 2, width change -3): the count
descriptor B31001 reaches `do_semantic_var` with its base record and `do_var` with
the altered one. -/
theorem semantic_descriptors_unmodified_witness :
    Visitor.r_replication (recorder ex_answer (ex_bitmap ['+'])) recorded_group
        (WR_VAR 1 1 0) (WR_VAR 0 31 1) () ex_interp =
      (.ok (),
        { vis := { ex_interp.vis with data_pos := ex_interp.vis.data_pos + 1 }
          ext := ex_interp.ext ++ .semantic_var (ex_info (WR_VAR 0 31 1)) ::
            (List.range (to_unsigned 3)).flatMap fun i =>
              [.start_repetition i, .traverse (ex_interp.vis.data_pos + 1)] }) ∧
    Visitor.b_variable (recorder ex_answer (ex_bitmap ['+']) : Delegate _ Unit)
        (WR_VAR 0 31 1) ex_interp =
      (.ok (), { vis := { ex_interp.vis with data_pos := ex_interp.vis.data_pos + 1 }
                 ext := ex_interp.ext ++
                   [.var { ex_info (WR_VAR 0 31 1) with scale := 2, bit_len := 5 }] }) :=
  ⟨semantic_descriptors_unmodified.1 Unit ex_answer (ex_bitmap ['+']) (WR_VAR 1 1 0)
      (WR_VAR 0 31 1) () ex_interp (ex_info (WR_VAR 0 31 1)) 3 (by decide) rfl rfl rfl,
    semantic_descriptors_unmodified.2.2 Unit ex_answer (ex_bitmap ['+']) (WR_VAR 0 31 1)
      ex_interp (ex_info (WR_VAR 0 31 1)) _ rfl (by decide) rfl (by decide) rfl⟩

end Wreport
